import Mathlib

/-!
Verification development for the home_media_server repository.

The TypeScript sources are shallowly embedded: JS strings become `List Char`,
JS numbers become `Int`/`Nat` (with `Option Int` for values that may be `NaN`),
the SQLite downloads table becomes a `List` of records, and the stateful
download manager becomes explicit state passing.  Each embedded definition
mirrors one source function and keeps its name where Lean allows it.
-/

namespace HMS

/-- JS whitespace characters relevant here (the `\s` class and `parseInt`
skipping; filenames and headers never contain the more exotic ones). -/
def isSpaceChar (c : Char) : Bool :=
  c = ' ' || c = '\t' || c = '\n' || c = '\r'

/-- Numeric value of a decimal digit character (ASCII code minus 48). -/
def digitVal (c : Char) : Nat := c.toNat - 48

/-- Value of a list of decimal digit characters, most significant first. -/
def digitsVal (l : List Char) : Nat :=
  l.foldl (fun acc c => acc * 10 + digitVal c) 0

/-- Maximal leading decimal-digit run, as a number; `none` when the run is
empty.  This is the digit-consuming core of JS `parseInt(s, 10)`: trailing
non-digit characters are ignored. -/
def leadNat (l : List Char) : Option Nat :=
  let ds := l.takeWhile Char.isDigit
  if ds.isEmpty then none else some (digitsVal ds)

/-- JS `parseInt(s, 10)`: skip leading whitespace, optional sign, then a
maximal leading run of decimal digits; `none` models the `NaN` result. -/
def jsParseInt (s : List Char) : Option Int :=
  let t := s.dropWhile isSpaceChar
  match t with
  | [] => none
  | c :: r =>
    if c = '-' then (leadNat r).map (fun n => -(n : Int))
    else if c = '+' then (leadNat r).map (fun n => (n : Int))
    else (leadNat (c :: r)).map (fun n => (n : Int))

/-- Decimal digit character for `d < 10` (ASCII `'0'` + d). -/
def digitChar (d : Nat) : Char := Char.ofNat (48 + d)

/-- Decimal rendering of a natural number, most significant digit first
(the canonical JS rendering of a nonnegative integer). -/
def natDigits (n : Nat) : List Char :=
  if n < 10 then [digitChar n]
  else natDigits (n / 10) ++ [digitChar (n % 10)]
termination_by n
decreasing_by omega

/-- Decimal rendering of an integer. -/
def intStr (i : Int) : List Char :=
  if i < 0 then '-' :: natDigits i.natAbs else natDigits i.toNat

/-- A JS number as it occurs in the embedded code: an integer, or `NaN`
(modelled as `none`).  `NaN` propagates through arithmetic. -/
abbrev JNum := Option Int

/-- JS addition on possibly-NaN numbers. -/
def jAdd : JNum → JNum → JNum
  | some a, some b => some (a + b)
  | _, _ => none

/-- JS subtraction on possibly-NaN numbers. -/
def jSub : JNum → JNum → JNum
  | some a, some b => some (a - b)
  | _, _ => none

/-- JS string interpolation of a possibly-NaN number. -/
def jStr : JNum → List Char
  | some i => intStr i
  | none => "NaN".data

/-- Boolean pattern/text match at the head of a list (used for JS
`startsWith` and for locating a replace pattern). -/
def hasLead : List Char → List Char → Bool
  | [], _ => true
  | _ :: _, [] => false
  | p :: ps, c :: cs => p = c && hasLead ps cs

/-- JS `s.replace(pat, '')` for a plain (non-global) pattern: remove the
leftmost occurrence of `pat`, leave everything else unchanged. -/
def replFirst (pat : List Char) : List Char → List Char
  | [] => []
  | c :: cs =>
    if hasLead pat (c :: cs) then (c :: cs).drop pat.length
    else c :: replFirst pat cs

/-- JS `s.split(sep)` for a single-character separator: `""` splits to
`[""]`, separators at the ends produce empty groups. -/
def jsSplit (sep : Char) : List Char → List (List Char)
  | [] => [[]]
  | c :: cs =>
    if c = sep then [] :: jsSplit sep cs
    else
      match jsSplit sep cs with
      | [] => [[c]]
      | g :: gs => (c :: g) :: gs

/-- Byte-lexicographic strict order on character lists; this is SQLite's
default BINARY collation used when comparing two TEXT values. -/
def textLt : List Char → List Char → Bool
  | [], [] => false
  | [], _ :: _ => true
  | _ :: _, [] => false
  | a :: as, b :: bs => if a = b then textLt as bs else decide (a < b)

/-- Non-strict code-point order on character lists (used to model
`localeCompare`, which agrees with code-point order on the lower-cased
ASCII names compared here). -/
def strLeCh : List Char → List Char → Bool
  | [], _ => true
  | _ :: _, [] => false
  | a :: as, b :: bs => if a = b then strLeCh as bs else decide (a < b)

theorem strLeCh_trans (a : List Char) : ∀ b c, strLeCh a b = true →
    strLeCh b c = true → strLeCh a c = true := by
  induction a with
  | nil => intro b c _ _; rfl
  | cons x xs ih =>
    intro b c hab hbc
    cases b with
    | nil => simp [strLeCh] at hab
    | cons y ys =>
      cases c with
      | nil => simp [strLeCh] at hbc
      | cons z zs =>
        simp only [strLeCh] at hab hbc ⊢
        by_cases hxy : x = y
        · subst hxy
          rw [if_pos rfl] at hab
          by_cases hxz : x = z
          · subst hxz
            rw [if_pos rfl] at hbc ⊢
            exact ih ys zs hab hbc
          · rw [if_neg hxz] at hbc ⊢
            exact hbc
        · rw [if_neg hxy] at hab
          by_cases hyz : y = z
          · subst hyz
            rw [if_neg hxy]
            exact hab
          · rw [if_neg hyz] at hbc
            have hlt : x < z := lt_trans (of_decide_eq_true hab) (of_decide_eq_true hbc)
            rw [if_neg (ne_of_lt hlt)]
            exact decide_eq_true hlt

theorem strLeCh_total (a b : List Char) :
    strLeCh a b = true ∨ strLeCh b a = true := by
  induction a generalizing b with
  | nil => left; cases b <;> simp [strLeCh]
  | cons x xs ih =>
    cases b with
    | nil => right; simp [strLeCh]
    | cons y ys =>
      by_cases hxy : x = y
      · subst hxy
        rcases ih ys with h | h
        · left; simp [strLeCh, h]
        · right; simp [strLeCh, h]
      · rcases lt_or_gt_of_ne hxy with hlt | hgt
        · left; simp [strLeCh, if_neg hxy, hlt]
        · right
          have hne : ¬ y = x := fun h => hxy h.symm
          simp [strLeCh, if_neg hne, hgt]

theorem hasLead_self_append (pat rest : List Char) :
    hasLead pat (pat ++ rest) = true := by
  induction pat with
  | nil => rfl
  | cons p ps ih => simp [hasLead, ih]

theorem replFirst_cancel (pat rest : List Char) (hne : pat ≠ []) :
    replFirst pat (pat ++ rest) = rest := by
  cases pat with
  | nil => exact absurd rfl hne
  | cons p ps =>
    show replFirst (p :: ps) ((p :: ps) ++ rest) = rest
    have hcons : (p :: ps) ++ rest = p :: (ps ++ rest) := rfl
    rw [hcons]
    simp only [replFirst]
    rw [← hcons, hasLead_self_append]
    simp [List.drop_left]

theorem jsSplit_digits_dash (ds : List Char) (h : ∀ c ∈ ds, c ≠ '-') :
    jsSplit '-' (ds ++ ['-']) = [ds, []] := by
  induction ds with
  | nil => rfl
  | cons c cs ih =>
    have hc : c ≠ '-' := h c (List.mem_cons_self c cs)
    have ih2 := ih (fun x hx => h x (List.mem_cons_of_mem c hx))
    simp only [List.cons_append, jsSplit, if_neg hc, List.append_eq]
    rw [ih2]

theorem digit_cases (d : Nat) (h : d < 10) :
    d = 0 ∨ d = 1 ∨ d = 2 ∨ d = 3 ∨ d = 4 ∨ d = 5 ∨ d = 6 ∨ d = 7 ∨ d = 8 ∨
      d = 9 := by
  omega

theorem digitChar_isDigit (d : Nat) (h : d < 10) :
    (digitChar d).isDigit = true := by
  rcases digit_cases d h with rfl|rfl|rfl|rfl|rfl|rfl|rfl|rfl|rfl|rfl <;> decide

theorem digitChar_val (d : Nat) (h : d < 10) : digitVal (digitChar d) = d := by
  rcases digit_cases d h with rfl|rfl|rfl|rfl|rfl|rfl|rfl|rfl|rfl|rfl <;> decide

theorem digitChar_ne_dash (d : Nat) (h : d < 10) : digitChar d ≠ '-' := by
  rcases digit_cases d h with rfl|rfl|rfl|rfl|rfl|rfl|rfl|rfl|rfl|rfl <;> decide

theorem digitChar_not_space (d : Nat) (h : d < 10) :
    isSpaceChar (digitChar d) = false := by
  rcases digit_cases d h with rfl|rfl|rfl|rfl|rfl|rfl|rfl|rfl|rfl|rfl <;> decide

theorem natDigits_all_digit (n : Nat) : ∀ c ∈ natDigits n, c.isDigit = true := by
  induction n using Nat.strong_induction_on with
  | _ n ih =>
    rw [natDigits]
    by_cases h : n < 10
    · simp only [if_pos h, List.mem_singleton]
      intro c hc; subst hc; exact digitChar_isDigit n h
    · simp only [if_neg h]
      intro c hc
      rcases List.mem_append.mp hc with hl | hr
      · exact ih (n / 10) (Nat.div_lt_self (by omega) (by omega)) c hl
      · rw [List.mem_singleton] at hr
        subst hr
        exact digitChar_isDigit (n % 10) (Nat.mod_lt n (by omega))

theorem natDigits_ne_nil (n : Nat) : natDigits n ≠ [] := by
  rw [natDigits]
  by_cases h : n < 10 <;> simp [h]

theorem digitsVal_acc (n : Nat) :
    ∀ acc : Nat, (natDigits n).foldl (fun a c => a * 10 + digitVal c) acc =
      acc * 10 ^ (natDigits n).length + n := by
  induction n using Nat.strong_induction_on with
  | _ n ih =>
    intro acc
    rw [natDigits]
    by_cases h : n < 10
    · simp [if_pos h, List.foldl, digitChar_val n h]
    · simp only [if_neg h, List.foldl_append, List.length_append]
      have hlt : n / 10 < n := Nat.div_lt_self (by omega) (by omega)
      rw [ih (n / 10) hlt acc]
      simp only [List.foldl, List.length_cons, List.length_nil]
      rw [digitChar_val (n % 10) (Nat.mod_lt n (by omega))]
      have h10 : 10 * (n / 10) + n % 10 = n := Nat.div_add_mod n 10
      calc (acc * 10 ^ (natDigits (n / 10)).length + n / 10) * 10 + n % 10
          = acc * 10 ^ ((natDigits (n / 10)).length + (0 + 1)) +
            (10 * (n / 10) + n % 10) := by ring
        _ = acc * 10 ^ ((natDigits (n / 10)).length + (0 + 1)) + n := by rw [h10]

theorem digitsVal_natDigits (n : Nat) : digitsVal (natDigits n) = n := by
  have := digitsVal_acc n 0
  simpa [digitsVal] using this

theorem leadNat_natDigits (n : Nat) : leadNat (natDigits n) = some n := by
  have hall : (natDigits n).takeWhile Char.isDigit = natDigits n := by
    apply List.takeWhile_eq_self_iff.mpr
    intro c hc
    exact natDigits_all_digit n c hc
  simp only [leadNat, hall]
  have hne := natDigits_ne_nil n
  rw [if_neg (by simpa [List.isEmpty_iff] using hne)]
  rw [digitsVal_natDigits]

theorem natDigits_head_digit (n : Nat) :
    ∃ c cs, natDigits n = c :: cs ∧ c.isDigit = true := by
  cases hd : natDigits n with
  | nil => exact absurd hd (natDigits_ne_nil n)
  | cons c cs =>
    exact ⟨c, cs, rfl, natDigits_all_digit n c (by rw [hd]; exact List.mem_cons_self c cs)⟩

theorem isDigit_char_bounds (c : Char) (h : c.isDigit = true) :
    48 ≤ c.toNat ∧ c.toNat ≤ 57 := by
  simp only [Char.isDigit, Bool.and_eq_true, decide_eq_true_eq] at h
  exact ⟨h.1, h.2⟩

theorem isDigit_not_special (c : Char) (h : c.isDigit = true) :
    isSpaceChar c = false ∧ c ≠ '-' ∧ c ≠ '+' := by
  obtain ⟨h1, _h2⟩ := isDigit_char_bounds c h
  refine ⟨?_, ?_, ?_⟩
  · simp only [isSpaceChar, Bool.or_eq_false_iff, decide_eq_false_iff_not]
    refine ⟨⟨⟨?_, ?_⟩, ?_⟩, ?_⟩ <;> · intro hc; subst hc; revert h1; decide
  · intro hc; subst hc; revert h1; decide
  · intro hc; subst hc; revert h1; decide

theorem jsParseInt_natDigits (n : Nat) : jsParseInt (natDigits n) = some (n : Int) := by
  obtain ⟨c, cs, hd, hdig⟩ := natDigits_head_digit n
  obtain ⟨hsp, hdash, hplus⟩ := isDigit_not_special c hdig
  rw [jsParseInt, hd]
  simp only [List.dropWhile_cons, hsp, Bool.false_eq_true, if_false]
  rw [if_neg hdash, if_neg hplus, ← hd, leadNat_natDigits]
  rfl


/-! ### Episode Heuristic (packages/shared/src/services/episodeDetector.ts)

JS regular expressions are embedded as hand-compiled matchers.  Every
repetition in the source patterns is greedy; backtracking can never change
the outcome because in each pattern the token following a repetition can
never match a character the repetition consumes (digit runs are followed by
non-digits, separator runs by non-separators), so a deterministic greedy
matcher is exact.  A leftmost scan over all start positions reproduces
`String.match`. -/

/-- Separator class `[\s._-]` used throughout the episode patterns. -/
def isSepCh (c : Char) : Bool :=
  isSpaceChar c || c = '.' || c = '_' || c = '-'

/-- Match a single character of a class, returning the rest. -/
def chOne (p : Char → Bool) : List Char → Option (List Char)
  | c :: cs => if p c then some cs else none
  | [] => none

/-- Greedy bounded digit run `\d{lo,hi}`: take up to `hi` leading digits,
fail if fewer than `lo`; returns the numeric value (the source applies
`parseInt` to the captured digits) and the rest. -/
def digRun (lo hi : Nat) (l : List Char) : Option (Nat × List Char) :=
  let ds := (l.takeWhile Char.isDigit).take hi
  if ds.length < lo then none else some (digitsVal ds, l.drop ds.length)

/-- Greedy `[\s._-]*`. -/
def sepStar (l : List Char) : List Char := l.dropWhile isSepCh

/-- Greedy `[\s._-]+`. -/
def sepPlus (l : List Char) : Option (List Char) :=
  match l with
  | c :: cs => if isSepCh c then some (cs.dropWhile isSepCh) else none
  | [] => none

/-- Case-sensitive literal. -/
def litRun : List Char → List Char → Option (List Char)
  | [], l => some l
  | p :: ps, c :: cs => if c = p then litRun ps cs else none
  | _ :: _, [] => none

/-- Case-insensitive literal (pattern given in lowercase). -/
def litCI : List Char → List Char → Option (List Char)
  | [], l => some l
  | p :: ps, c :: cs => if c.toLower = p then litCI ps cs else none
  | _ :: _, [] => none

/-- Pattern `[Ss](\d{1,2})[Ee](\d{1,3})` at one position. -/
def mSE (l : List Char) : Option (Nat × Nat) := do
  let r1 ← chOne (fun c => c = 'S' || c = 's') l
  let (sea, r2) ← digRun 1 2 r1
  let r3 ← chOne (fun c => c = 'E' || c = 'e') r2
  let (ep, _) ← digRun 1 3 r3
  pure (sea, ep)

/-- Pattern `(\d{1,2})x(\d{2,3})` at one position. -/
def mX (l : List Char) : Option (Nat × Nat) := do
  let (sea, r1) ← digRun 1 2 l
  let r2 ← chOne (fun c => c = 'x') r1
  let (ep, _) ← digRun 2 3 r2
  pure (sea, ep)

/-- Pattern `[Ss]eason[\s._-]*(\d{1,2})[\s._-]*[Ee]pisode[\s._-]*(\d{1,3})`
with the `i` flag, at one position. -/
def mSeasonWord (l : List Char) : Option (Nat × Nat) := do
  let r1 ← litCI "season".data l
  let (sea, r2) ← digRun 1 2 (sepStar r1)
  let r3 ← litCI "episode".data (sepStar r2)
  let (ep, _) ← digRun 1 3 (sepStar r3)
  pure (sea, ep)

/-- Pattern `[Ss](\d{1,2})\.?[Ee](\d{1,3})` at one position. -/
def mSDotE (l : List Char) : Option (Nat × Nat) := do
  let r1 ← chOne (fun c => c = 'S' || c = 's') l
  let (sea, r2) ← digRun 1 2 r1
  let r3 := match r2 with
    | '.' :: t => t
    | t => t
  let r4 ← chOne (fun c => c = 'E' || c = 'e') r3
  let (ep, _) ← digRun 1 3 r4
  pure (sea, ep)

/-- Pattern `[Ee]p(?:isode)?[\s._-]*(\d{1,3})` at one position (note: only
the initial letter is case-insensitive in the source). -/
def mEpWord (l : List Char) : Option Nat := do
  let r1 ← chOne (fun c => c = 'E' || c = 'e') l
  let r2 ← litRun "p".data r1
  let r3 := match litRun "isode".data r2 with
    | some t => t
    | none => r2
  let (ep, _) ← digRun 1 3 (sepStar r3)
  pure ep

/-- Pattern `[Pp]art[\s._-]*(\d{1,3})` at one position. -/
def mPartWord (l : List Char) : Option Nat := do
  let r1 ← chOne (fun c => c = 'P' || c = 'p') l
  let r2 ← litRun "art".data r1
  let (ep, _) ← digRun 1 3 (sepStar r2)
  pure ep

/-- Pattern `[\s._-]+(\d{2,3})(?:[\s._-]|$)` at one position. -/
def mBareNum (l : List Char) : Option Nat := do
  let r1 ← sepPlus l
  let (ep, r2) ← digRun 2 3 r1
  match r2 with
  | [] => pure ep
  | c :: _ => if isSepCh c then pure ep else none

/-- Leftmost match: try the position matcher at indices 0, 1, …; return the
first success together with its index (JS `match.index`). -/
def scanFirst (m : List Char → Option α) (i : Nat) : List Char → Option (Nat × α)
  | [] =>
    match m [] with
    | some a => some (i, a)
    | none => none
  | c :: t =>
    match m (c :: t) with
    | some a => some (i, a)
    | none => scanFirst m (i + 1) t

/-- Collapse every maximal run of characters matching `p` into a single
`repl` character: JS `replace(/[class]+/g, repl)`. -/
def collapseRuns (p : Char → Bool) (repl : Char) : List Char → List Char :=
  go false
where
  go : Bool → List Char → List Char
    | _, [] => []
    | inRun, c :: cs =>
      if p c then
        if inRun then go true cs else repl :: go true cs
      else c :: go false cs

/-- Global removal of `o` + four digits + `c`, i.e. JS
`replace(/\(\d{4}\)/g, '')` and the bracket variant; scanning resumes after
each removed occurrence, exactly as a global regex replace does. -/
def removeYear (o c : Char) : List Char → List Char
  | [] => []
  | x :: a :: b :: e :: f :: g :: rest =>
    if x = o && a.isDigit && b.isDigit && e.isDigit && f.isDigit && g = c then
      removeYear o c rest
    else x :: removeYear o c (a :: b :: e :: f :: g :: rest)
  | x :: xs => x :: removeYear o c xs

/-- JS `String.prototype.trim`. -/
def jsTrim (s : List Char) : List Char :=
  ((s.dropWhile isSpaceChar).reverse.dropWhile isSpaceChar).reverse

/-- `filename.replace(/\.[^/.]+$/, '')`: strip a trailing extension.  The
regex can only match at the last dot (the matched run may contain neither
`.` nor `/`), so this is: drop from the final dot when it is followed by a
nonempty run free of `.` and `/`. -/
def stripExt (s : List Char) : List Char :=
  let r := s.reverse
  let ext := r.takeWhile (fun c => !(c = '.' || c = '/'))
  match r.drop ext.length with
  | '.' :: rest => if ext.isEmpty then s else rest.reverse
  | _ => s

/-- cleanShowName: separators → spaces, collapse whitespace, drop `(yyyy)`
and `[yyyy]`, trim, lowercase — in exactly the source order. -/
def cleanShowName (s : List Char) : List Char :=
  let s1 := collapseRuns (fun c => c = '.' || c = '_' || c = '-') ' ' s
  let s2 := collapseRuns isSpaceChar ' ' s1
  let s3 := removeYear '(' ')' s2
  let s4 := removeYear '[' ']' s3
  (jsTrim s4).map Char.toLower

/-- normalizeShowName: clean again, then keep only `[a-z0-9]`. -/
def normalizeShowName (s : List Char) : List Char :=
  (cleanShowName s).filter
    (fun c => ('a' ≤ c && c ≤ 'z') || ('0' ≤ c && c ≤ '9'))

/-- Parsed episode information.  The source also stores the matched pattern
text (`matchedPattern`), which no embedded function consumes; it is
omitted. -/
structure EpisodeInfo where
  showName : List Char
  season : Nat
  episode : Nat
deriving DecidableEq, Repr

/-- parseEpisodeInfo: strip the extension, try the four season+episode
patterns in order, then the three standalone-episode patterns (season 1
assumed); the show name is the cleaned text before the match. -/
def parseEpisodeInfo (filename : List Char) : Option EpisodeInfo :=
  let base := stripExt filename
  match scanFirst mSE 0 base with
  | some (i, (sea, ep)) => some ⟨cleanShowName (base.take i), sea, ep⟩
  | none =>
  match scanFirst mX 0 base with
  | some (i, (sea, ep)) => some ⟨cleanShowName (base.take i), sea, ep⟩
  | none =>
  match scanFirst mSeasonWord 0 base with
  | some (i, (sea, ep)) => some ⟨cleanShowName (base.take i), sea, ep⟩
  | none =>
  match scanFirst mSDotE 0 base with
  | some (i, (sea, ep)) => some ⟨cleanShowName (base.take i), sea, ep⟩
  | none =>
  match scanFirst mEpWord 0 base with
  | some (i, ep) => some ⟨cleanShowName (base.take i), 1, ep⟩
  | none =>
  match scanFirst mPartWord 0 base with
  | some (i, ep) => some ⟨cleanShowName (base.take i), 1, ep⟩
  | none =>
  match scanFirst mBareNum 0 base with
  | some (i, ep) => some ⟨cleanShowName (base.take i), 1, ep⟩
  | none => none

/-- The `type` field of a MediaFile. -/
inductive FKind
  | file
  | folder
deriving DecidableEq, Repr

/-- MediaFile restricted to the fields the episode services read
(`id`, `name`, `type`). -/
structure MediaFile where
  id : Nat
  name : List Char
  kind : FKind
deriving DecidableEq, Repr

/-- Sort comparator of findNextEpisodes (season difference, then episode
difference), as the non-strict relation realised by the stable JS sort. -/
def epLeB (a b : EpisodeInfo) : Bool :=
  if a.season = b.season then decide (a.episode ≤ b.episode)
  else decide (a.season < b.season)

theorem epLeB_trans (a b c : EpisodeInfo) (h1 : epLeB a b = true)
    (h2 : epLeB b c = true) : epLeB a c = true := by
  simp only [epLeB] at h1 h2 ⊢
  split_ifs at h1 h2 ⊢ <;> simp only [decide_eq_true_eq] at h1 h2 ⊢ <;> omega

theorem epLeB_total (a b : EpisodeInfo) : (epLeB a b || epLeB b a) = true := by
  simp only [epLeB]
  split_ifs <;> simp only [Bool.or_eq_true, decide_eq_true_eq] <;> omega

/-- The comparator lifted to the (file, info) pairs being sorted, as a
relation.  JS `Array.prototype.sort` is stable, and a stable sort with
respect to a total preorder has a unique result, so the structural
insertion sort used below models it exactly. -/
def epPairLe (a b : MediaFile × EpisodeInfo) : Prop := epLeB a.2 b.2 = true

instance : DecidableRel epPairLe := fun a b =>
  inferInstanceAs (Decidable (epLeB a.2 b.2 = true))

instance : IsTrans (MediaFile × EpisodeInfo) epPairLe :=
  ⟨fun a b c h1 h2 => epLeB_trans a.2 b.2 c.2 h1 h2⟩

instance : IsTotal (MediaFile × EpisodeInfo) epPairLe :=
  ⟨fun a b => by
    rcases (Bool.or_eq_true _ _).mp (epLeB_total a.2 b.2) with h | h
    · exact Or.inl h
    · exact Or.inr h⟩

/-- findNextEpisodes: same-show siblings strictly after the current episode,
sorted by (season, episode), first `count`. -/
def findNextEpisodes (currentFile : MediaFile) (allFiles : List MediaFile)
    (count : Nat) : List MediaFile :=
  match parseEpisodeInfo currentFile.name with
  | none => []
  | some currentInfo =>
    let ncs := normalizeShowName currentInfo.showName
    let parsedFiles := (allFiles.filter
        (fun f => decide (f.kind = FKind.file) && !decide (f.id = currentFile.id))).filterMap
      (fun f =>
        match parseEpisodeInfo f.name with
        | some info =>
          if normalizeShowName info.showName = ncs then some (f, info) else none
        | none => none)
    let nextEpisodes := parsedFiles.filter (fun p =>
      (decide (p.2.season = currentInfo.season) &&
        decide (p.2.episode > currentInfo.episode)) ||
      decide (p.2.season > currentInfo.season))
    let sorted := List.insertionSort epPairLe nextEpisodes
    (sorted.take count).map Prod.fst

/-- Comparator of getNextAlphabetically:
`a.name.toLowerCase().localeCompare(b.name.toLowerCase())`, modelled as
code-point order on the lower-cased names (they agree on ASCII names). -/
def lowerNameLe (a b : MediaFile) : Bool :=
  strLeCh (a.name.map Char.toLower) (b.name.map Char.toLower)

theorem lowerNameLe_trans (a b c : MediaFile) (h1 : lowerNameLe a b = true)
    (h2 : lowerNameLe b c = true) : lowerNameLe a c = true :=
  strLeCh_trans _ _ _ h1 h2

theorem lowerNameLe_total (a b : MediaFile) :
    (lowerNameLe a b || lowerNameLe b a) = true := by
  rcases strLeCh_total (a.name.map Char.toLower) (b.name.map Char.toLower)
    with h | h
  · simp [lowerNameLe, h]
  · simp [lowerNameLe, h]

/-- The alphabetical comparator as a relation (see `epPairLe` on why the
stable JS sort is modelled by insertion sort). -/
def mfAlphaLe (a b : MediaFile) : Prop := lowerNameLe a b = true

instance : DecidableRel mfAlphaLe := fun a b =>
  inferInstanceAs (Decidable (lowerNameLe a b = true))

instance : IsTrans MediaFile mfAlphaLe :=
  ⟨fun a b c h1 h2 => lowerNameLe_trans a b c h1 h2⟩

instance : IsTotal MediaFile mfAlphaLe :=
  ⟨fun a b => by
    rcases (Bool.or_eq_true _ _).mp (lowerNameLe_total a b) with h | h
    · exact Or.inl h
    · exact Or.inr h⟩

/-- getNextAlphabetically: the `count` files (folders excluded) directly
after the current file in the case-insensitive alphabetical order. -/
def getNextAlphabetically (currentFile : MediaFile) (allFiles : List MediaFile)
    (count : Nat) : List MediaFile :=
  let files := allFiles.filter (fun f => decide (f.kind = FKind.file))
  let sorted := List.insertionSort mfAlphaLe files
  match sorted.findIdx? (fun f => decide (f.id = currentFile.id)) with
  | none => []
  | some i => (sorted.drop (i + 1)).take count

/-- Detection method reported by findFilesToAutoDownload. -/
inductive DetectMethod
  | episode
  | alphabetical
deriving DecidableEq, Repr

/-- findFilesToAutoDownload: current file first; next episodes when the
pattern matched, alphabetical fallback otherwise; a single pattern result is
topped up with the next alphabetical file when not already selected. -/
def findFilesToAutoDownload (currentFile : MediaFile)
    (allFiles : List MediaFile) : List MediaFile × DetectMethod :=
  let episodeFiles := findNextEpisodes currentFile allFiles 2
  let base :=
    if episodeFiles.isEmpty then
      (currentFile :: getNextAlphabetically currentFile allFiles 2,
        DetectMethod.alphabetical)
    else (currentFile :: episodeFiles, DetectMethod.episode)
  if episodeFiles.length = 1 then
    let additional := getNextAlphabetically currentFile allFiles 1
    (additional.foldl
      (fun acc f =>
        if acc.any (fun g => decide (g.id = f.id)) then acc else acc ++ [f])
      base.1, base.2)
  else base


/-! ### Episode-heuristic theorems (claims C4, C5) -/

/-- Characterisation of every pair surviving the filter/filterMap/sort/take
pipeline of findNextEpisodes. -/
theorem findNextEpisodes_pipeline (cur : MediaFile) (all : List MediaFile)
    (n : Nat) (ci : EpisodeInfo) (p : MediaFile × EpisodeInfo)
    (hp : p ∈ (List.insertionSort epPairLe ((List.filterMap
      (fun f =>
        match parseEpisodeInfo f.name with
        | some info =>
          if normalizeShowName info.showName = normalizeShowName ci.showName then
            some (f, info)
          else none
        | none => none)
      (all.filter
        (fun f => decide (f.kind = FKind.file) && !decide (f.id = cur.id)))).filter
      (fun p =>
        (decide (p.2.season = ci.season) && decide (p.2.episode > ci.episode)) ||
        decide (p.2.season > ci.season)))).take n) :
    p.1 ∈ all ∧ p.1.kind = FKind.file ∧ p.1.id ≠ cur.id ∧
      parseEpisodeInfo p.1.name = some p.2 ∧
      normalizeShowName p.2.showName = normalizeShowName ci.showName ∧
      ((p.2.season = ci.season ∧ p.2.episode > ci.episode) ∨
        p.2.season > ci.season) := by
  have h1 := List.mem_of_mem_take hp
  rw [(List.perm_insertionSort epPairLe _).mem_iff] at h1
  rw [List.mem_filter] at h1
  obtain ⟨h2, hafter⟩ := h1
  rw [List.mem_filterMap] at h2
  obtain ⟨g, hg, hfg⟩ := h2
  rw [List.mem_filter] at hg
  obtain ⟨hgall, hgcond⟩ := hg
  simp only [Bool.and_eq_true, Bool.not_eq_true', decide_eq_true_eq,
    decide_eq_false_iff_not] at hgcond
  cases heq : parseEpisodeInfo g.name with
  | none => rw [heq] at hfg; exact absurd hfg (by simp)
  | some info =>
    rw [heq] at hfg
    have hfg2 : (if normalizeShowName info.showName =
        normalizeShowName ci.showName then some (g, info) else none) =
        some p := hfg
    by_cases hshow : normalizeShowName info.showName =
        normalizeShowName ci.showName
    · rw [if_pos hshow] at hfg2
      have hpe : p = (g, info) := ((Option.some.injEq _ _).mp hfg2).symm
      cases hpe
      simp only [Bool.or_eq_true, Bool.and_eq_true, decide_eq_true_eq]
        at hafter
      exact ⟨hgall, hgcond.1, hgcond.2, heq, hshow, hafter⟩
    · rw [if_neg hshow] at hfg2
      exact absurd hfg2 (by simp)

/-- Claim C4: for every playing file whose name matches an episode pattern,
findNextEpisodes returns only sibling plain files of the same normalised
show whose (season, episode) position is strictly after the current one —
same season with strictly greater episode, or strictly greater season —
sorted ascending by (season, episode) and truncated to the first `n`. -/
theorem findNextEpisodes_spec (cur : MediaFile) (all : List MediaFile)
    (n : Nat) (ci : EpisodeInfo) (hc : parseEpisodeInfo cur.name = some ci) :
    (∀ f ∈ findNextEpisodes cur all n,
      f ∈ all ∧ f.kind = FKind.file ∧ f.id ≠ cur.id ∧
      ∃ fi, parseEpisodeInfo f.name = some fi ∧
        normalizeShowName fi.showName = normalizeShowName ci.showName ∧
        ((fi.season = ci.season ∧ fi.episode > ci.episode) ∨
          fi.season > ci.season)) ∧
    (findNextEpisodes cur all n).length ≤ n ∧
    List.Pairwise (fun a b => ∃ ia ib, parseEpisodeInfo a.name = some ia ∧
      parseEpisodeInfo b.name = some ib ∧ epLeB ia ib = true)
      (findNextEpisodes cur all n) := by
  have hdef : findNextEpisodes cur all n =
      ((List.insertionSort epPairLe ((List.filterMap
        (fun f =>
          match parseEpisodeInfo f.name with
          | some info =>
            if normalizeShowName info.showName =
                normalizeShowName ci.showName then
              some (f, info)
            else none
          | none => none)
        (all.filter
          (fun f =>
            decide (f.kind = FKind.file) && !decide (f.id = cur.id)))).filter
        (fun p =>
          (decide (p.2.season = ci.season) &&
            decide (p.2.episode > ci.episode)) ||
          decide (p.2.season > ci.season)))).take n).map Prod.fst := by
    rw [findNextEpisodes, hc]
  refine ⟨?_, ?_, ?_⟩
  · intro f hf
    rw [hdef, List.mem_map] at hf
    obtain ⟨p, hp, hpf⟩ := hf
    obtain ⟨m1, m2, m3, m4, m5, m6⟩ := findNextEpisodes_pipeline cur all n ci p hp
    subst hpf
    exact ⟨m1, m2, m3, p.2, m4, m5, m6⟩
  · rw [hdef, List.length_map]
    exact List.length_take_le n _
  · rw [hdef, List.pairwise_map]
    have hs := List.sorted_insertionSort epPairLe ((List.filterMap
        (fun f =>
          match parseEpisodeInfo f.name with
          | some info =>
            if normalizeShowName info.showName =
                normalizeShowName ci.showName then
              some (f, info)
            else none
          | none => none)
        (all.filter
          (fun f =>
            decide (f.kind = FKind.file) && !decide (f.id = cur.id)))).filter
        (fun p =>
          (decide (p.2.season = ci.season) &&
            decide (p.2.episode > ci.episode)) ||
          decide (p.2.season > ci.season)))
    refine List.Pairwise.imp_of_mem ?_
      (List.Pairwise.sublist (List.take_sublist n _) hs)
    intro p q hp hq hr
    obtain ⟨_, _, _, hp4, _, _⟩ := findNextEpisodes_pipeline cur all n ci p hp
    obtain ⟨_, _, _, hq4, _, _⟩ := findNextEpisodes_pipeline cur all n ci q hq
    exact ⟨p.2, q.2, hp4, hq4, hr⟩

/-- Concrete playing file for the C4 witness. -/
def epCur : MediaFile := ⟨1, "Show.S01E01.mp4".data, FKind.file⟩

/-- Concrete sibling list (same show, another show, a folder) for the C4
witness. -/
def epSibs : List MediaFile :=
  [epCur, ⟨2, "Show.S01E02.mp4".data, FKind.file⟩,
    ⟨3, "Other.S01E05.mp4".data, FKind.file⟩,
    ⟨4, "Specials".data, FKind.folder⟩]

/-- Concrete episode info of the C4 witness file. -/
def epInfo0 : EpisodeInfo := ⟨"show".data, 1, 1⟩

theorem findNextEpisodes_spec_witness :
    parseEpisodeInfo epCur.name = some epInfo0 ∧
    (∀ f ∈ findNextEpisodes epCur epSibs 2,
      f ∈ epSibs ∧ f.kind = FKind.file ∧ f.id ≠ epCur.id ∧
      ∃ fi, parseEpisodeInfo f.name = some fi ∧
        normalizeShowName fi.showName = normalizeShowName epInfo0.showName ∧
        ((fi.season = epInfo0.season ∧ fi.episode > epInfo0.episode) ∨
          fi.season > epInfo0.season)) :=
  ⟨by decide, (findNextEpisodes_spec epCur epSibs 2 epInfo0 (by decide)).1⟩

/-- Claim C5: the combined auto-download selection rule.  The current file is
always first; two pattern results are taken as-is; a single pattern result is
topped up with the next alphabetical file when not already selected; no
pattern result means a pure alphabetical fallback; and the alphabetical
fallback is exactly the next `count` entries after the current file in the
sorted (case-insensitively, folders excluded) sibling list. -/
theorem findFilesToAutoDownload_spec (cur : MediaFile) (all : List MediaFile) :
    (findFilesToAutoDownload cur all).1.head? = some cur ∧
    (findNextEpisodes cur all 2).length ≤ 2 ∧
    (findNextEpisodes cur all 2 = [] →
      findFilesToAutoDownload cur all =
        (cur :: getNextAlphabetically cur all 2, DetectMethod.alphabetical)) ∧
    (∀ e1 e2, findNextEpisodes cur all 2 = [e1, e2] →
      findFilesToAutoDownload cur all = ([cur, e1, e2], DetectMethod.episode)) ∧
    (∀ e, findNextEpisodes cur all 2 = [e] →
      findFilesToAutoDownload cur all =
        (cur :: e :: (getNextAlphabetically cur all 1).filter
            (fun f => !(decide (cur.id = f.id) || decide (e.id = f.id))),
          DetectMethod.episode)) ∧
    (parseEpisodeInfo cur.name = none → findNextEpisodes cur all 2 = []) ∧
    (List.insertionSort mfAlphaLe
        (all.filter (fun f => decide (f.kind = FKind.file)))).Perm
      (all.filter (fun f => decide (f.kind = FKind.file))) ∧
    List.Sorted mfAlphaLe
      (List.insertionSort mfAlphaLe
        (all.filter (fun f => decide (f.kind = FKind.file)))) ∧
    (∀ i cnt, ((List.insertionSort mfAlphaLe
          (all.filter (fun f => decide (f.kind = FKind.file)))).findIdx?
          (fun f => decide (f.id = cur.id))) = some i →
      getNextAlphabetically cur all cnt =
        ((List.insertionSort mfAlphaLe
          (all.filter (fun f => decide (f.kind = FKind.file)))).drop
          (i + 1)).take cnt) := by
  have hlen : (findNextEpisodes cur all 2).length ≤ 2 := by
    rw [findNextEpisodes]
    cases parseEpisodeInfo cur.name with
    | none => simp
    | some ci =>
      simp only [List.length_map]
      exact List.length_take_le 2 _
  have hnil : findNextEpisodes cur all 2 = [] →
      findFilesToAutoDownload cur all =
        (cur :: getNextAlphabetically cur all 2, DetectMethod.alphabetical) := by
    intro h
    rw [findFilesToAutoDownload, h]
    simp
  have htwo : ∀ e1 e2, findNextEpisodes cur all 2 = [e1, e2] →
      findFilesToAutoDownload cur all = ([cur, e1, e2], DetectMethod.episode) := by
    intro e1 e2 h
    rw [findFilesToAutoDownload, h]
    simp
  have hone : ∀ e, findNextEpisodes cur all 2 = [e] →
      findFilesToAutoDownload cur all =
        (cur :: e :: (getNextAlphabetically cur all 1).filter
            (fun f => !(decide (cur.id = f.id) || decide (e.id = f.id))),
          DetectMethod.episode) := by
    intro e h
    rw [findFilesToAutoDownload, h]
    have hlen1 : (getNextAlphabetically cur all 1).length ≤ 1 := by
      rw [getNextAlphabetically]
      cases hidx : (List.insertionSort mfAlphaLe
          (all.filter (fun f => decide (f.kind = FKind.file)))).findIdx?
          (fun f => decide (f.id = cur.id)) with
      | none => simp
      | some i => exact List.length_take_le 1 _
    cases hadd : getNextAlphabetically cur all 1 with
    | nil => simp
    | cons f fs =>
      cases fs with
      | nil =>
        simp only [List.isEmpty_cons, Bool.false_eq_true, if_false,
          List.length_singleton, if_pos rfl, List.foldl_cons, List.foldl_nil,
          List.filter]
        by_cases hid : cur.id = f.id
        · simp [List.any_cons, hid]
        · by_cases hid2 : e.id = f.id
          · simp [List.any_cons, hid, hid2]
          · simp [List.any_cons, hid, hid2]
      | cons g gs =>
        rw [hadd] at hlen1
        simp at hlen1
  refine ⟨?_, hlen, hnil, htwo, hone, ?_, ?_, ?_, ?_⟩
  · rcases hsh : findNextEpisodes cur all 2 with _ | ⟨e1, rest⟩
    · rw [hnil hsh]; rfl
    · rcases rest with _ | ⟨e2, rest2⟩
      · rw [hone e1 hsh]; rfl
      · rcases rest2 with _ | ⟨e3, rest3⟩
        · rw [htwo e1 e2 hsh]; rfl
        · rw [hsh] at hlen; simp at hlen
  · intro h
    rw [findNextEpisodes, h]
  · exact List.perm_insertionSort mfAlphaLe _
  · exact List.sorted_insertionSort mfAlphaLe _
  · intro i cnt h
    rw [getNextAlphabetically, h]

/-- Concrete no-pattern sibling scenario (five alphabetical files plus a
folder) for the C5 witness. -/
def alCur : MediaFile := ⟨2, "beta.mp4".data, FKind.file⟩

/-- Sibling list of the C5 witness. -/
def alSibs : List MediaFile :=
  [⟨1, "alpha.mp4".data, FKind.file⟩, alCur, ⟨3, "delta.mp4".data, FKind.file⟩,
    ⟨4, "gamma.mp4".data, FKind.file⟩, ⟨5, "zeta.mp4".data, FKind.file⟩,
    ⟨6, "covers".data, FKind.folder⟩]

theorem findFilesToAutoDownload_spec_witness :
    parseEpisodeInfo alCur.name = none ∧
    findNextEpisodes alCur alSibs 2 = [] ∧
    findFilesToAutoDownload alCur alSibs =
      (alCur :: getNextAlphabetically alCur alSibs 2,
        DetectMethod.alphabetical) ∧
    getNextAlphabetically alCur alSibs 2 =
      [⟨3, "delta.mp4".data, FKind.file⟩,
        ⟨4, "gamma.mp4".data, FKind.file⟩] := by
  have hs := findFilesToAutoDownload_spec alCur alSibs
  have hnone : parseEpisodeInfo alCur.name = none := by decide
  have hempty : findNextEpisodes alCur alSibs 2 = [] :=
    hs.2.2.2.2.2.1 hnone
  exact ⟨hnone, hempty, hs.2.2.1 hempty, by decide⟩

/-! ### Download Manager (the downloadManager service plus
database/downloads.ts)

The manager's mutable module state (the SQLite downloads table,
`downloadQueue`, `activeDownloads`, `activeStreams`,
`downloadConnectionInfo`) becomes a record, and the externally triggered
operations become functions on it.  Pausing or cancelling an active
download destroys its request and write stream, but `processDownload`'s
try/catch/finally still runs when the destroyed transfer settles its
promise (the registered request `error` handler rejects it); the `pending`
field holds the ids of such destroyed-but-unsettled transfers and
`settleAborted` is that continuation: catch marks the record failed,
finally decrements `activeDownloads` again and re-runs the queue. -/

inductive DStatus
  | queued
  | downloading
  | paused
  | completed
  | failed
deriving DecidableEq, Repr

/-- A row of the downloads table.  Identifiers and the (fileId,
sourceDeviceId) pair are abstracted to numbers; fields no claim reads
(fileName, sourceDeviceName, remotePath, byte counts, timestamps, error)
are omitted. -/
structure DRec where
  id : Nat
  fileId : Nat
  deviceId : Nat
  status : DStatus
  localPath : Option (List Char) := none
  expiresAt : Option (List Char) := none
deriving DecidableEq, Repr

/-- getDownloadById: the row with this id (id is the PRIMARY KEY; `find?`
order models SQLite's row order). -/
def getDownloadById : List DRec → Nat → Option DRec
  | [], _ => none
  | r :: rs, i => if r.id = i then some r else getDownloadById rs i

/-- The database writes updateDownloadStatus / pauseDownload /
resumeDownload: a SQL UPDATE of the status over the rows with this id. -/
def setStatus : List DRec → Nat → DStatus → List DRec
  | [], _, _ => []
  | r :: rs, i, st =>
    if r.id = i then { r with status := st } :: setStatus rs i st
    else r :: setStatus rs i st

/-- isFileDownloaded: first row for the (fileId, sourceDeviceId) pair whose
status is queued, downloading or completed (the exact status set of the SQL
query — paused and failed rows do not count). -/
def isFileDownloaded : List DRec → Nat → Nat → Option DRec
  | [], _, _ => none
  | r :: rs, fid, did =>
    if r.fileId = fid ∧ r.deviceId = did ∧
        (r.status = DStatus.queued ∨ r.status = DStatus.downloading ∨
          r.status = DStatus.completed) then
      some r
    else isFileDownloaded rs fid did

/-- Number of rows for a (fileId, sourceDeviceId) pair. -/
def countPair (db : List DRec) (fid did : Nat) : Nat :=
  (db.filter
    (fun r => decide (r.fileId = fid) && decide (r.deviceId = did))).length

/-- MAX_CONCURRENT_DOWNLOADS. -/
def MAX_CONCURRENT_DOWNLOADS : Int := 3

/-- The download manager's mutable state. -/
structure DMState where
  db : List DRec
  queue : List Nat
  active : Int
  streams : List Nat
  pending : List Nat
  connInfo : List Nat
deriving DecidableEq, Repr

/-- One `while` pass of processQueue with explicit fuel; every iteration
dequeues exactly one id, so `queue.length` fuel runs the loop to
completion.  A dequeued id whose record is missing, paused or completed is
skipped (`continue`); otherwise processDownload's synchronous prefix runs:
with connection info the slot is taken (counter incremented, status set to
downloading, stream registered), without it the record is marked failed and
no slot is consumed. -/
def processQueueAux : Nat → DMState → DMState
  | 0, s => s
  | fuel + 1, s =>
    if s.active < MAX_CONCURRENT_DOWNLOADS then
      match s.queue with
      | [] => s
      | did :: rest =>
        let s1 : DMState := { s with queue := rest }
        match getDownloadById s1.db did with
        | none => processQueueAux fuel s1
        | some r =>
          if r.status = DStatus.paused ∨ r.status = DStatus.completed then
            processQueueAux fuel s1
          else if did ∈ s1.connInfo then
            processQueueAux fuel { s1 with
              active := s1.active + 1,
              db := setStatus s1.db did DStatus.downloading,
              streams := did :: s1.streams }
          else
            processQueueAux fuel
              { s1 with db := setStatus s1.db did DStatus.failed }
    else s

/-- processQueue: drain the admission queue while capacity remains. -/
def processQueue (s : DMState) : DMState := processQueueAux s.queue.length s

/-- The arguments of startDownload a claim reads. -/
structure StartParams where
  id : Nat
  fileId : Nat
  deviceId : Nat
deriving DecidableEq, Repr

/-- startDownload: return the existing record for the pair when
isFileDownloaded finds one; otherwise create a queued record, remember the
connection info, enqueue, fetch the created row (before the queue drain, as
the source does) and drain the queue. -/
def startDownload (p : StartParams) (s : DMState) : DRec × DMState :=
  match isFileDownloaded s.db p.fileId p.deviceId with
  | some existing => (existing, s)
  | none =>
    let newRec : DRec :=
      { id := p.id, fileId := p.fileId, deviceId := p.deviceId,
        status := DStatus.queued }
    let s1 : DMState := { s with
      db := s.db ++ [newRec],
      connInfo := p.id :: s.connInfo,
      queue := s.queue ++ [p.id] }
    let d := (getDownloadById s1.db p.id).getD newRec
    (d, processQueue s1)

/-- pauseDownload: destroy the stream when active (slot released, settle
pending), remove from the queue, persist status paused.  No queue drain. -/
def pauseDownload (i : Nat) (s : DMState) : DMState :=
  let s1 :=
    if i ∈ s.streams then
      { s with streams := s.streams.filter (fun j => !decide (j = i)),
               active := s.active - 1,
               pending := i :: s.pending }
    else s
  { s1 with queue := s1.queue.filter (fun j => !decide (j = i)),
            db := setStatus s1.db i DStatus.paused }

/-- The deferred settlement of a transfer destroyed by pause/cancel:
processDownload's catch marks the record failed (a no-op if cancel already
deleted the row) and its finally block decrements the counter again and
re-runs the queue. -/
def settleAborted (i : Nat) (s : DMState) : DMState :=
  if i ∈ s.pending then
    processQueue
      { s with pending := s.pending.filter (fun j => !decide (j = i)),
               db := setStatus s.db i DStatus.failed,
               active := s.active - 1 }
  else s

/-- Normal completion of an active transfer: completeDownload, then the
finally block (slot released, stream dropped, queue drained). -/
def finishTransfer (i : Nat) (s : DMState) : DMState :=
  if i ∈ s.streams then
    processQueue
      { s with db := setStatus s.db i DStatus.completed,
               streams := s.streams.filter (fun j => !decide (j = i)),
               active := s.active - 1 }
  else s

/-- Transfer failure (HTTP / filesystem error): catch marks failed, finally
releases the slot and drains the queue. -/
def failTransfer (i : Nat) (s : DMState) : DMState :=
  if i ∈ s.streams then
    processQueue
      { s with db := setStatus s.db i DStatus.failed,
               streams := s.streams.filter (fun j => !decide (j = i)),
               active := s.active - 1 }
  else s

/-- resumeDownload: only a paused record re-enters the queue. -/
def resumeDownload (i : Nat) (s : DMState) : Bool × DMState :=
  match getDownloadById s.db i with
  | some r =>
    if r.status = DStatus.paused then
      (true, processQueue
        { s with db := setStatus s.db i DStatus.queued,
                 queue := s.queue ++ [i] })
    else (false, s)
  | none => (false, s)

/-- cancelDownload: destroy an active stream (slot released, settle
pending), remove from queue and database, drop connection info, drain the
queue. -/
def cancelDownload (i : Nat) (s : DMState) : DMState :=
  let s1 :=
    if i ∈ s.streams then
      { s with streams := s.streams.filter (fun j => !decide (j = i)),
               active := s.active - 1,
               pending := i :: s.pending }
    else s
  processQueue
    { s1 with queue := s1.queue.filter (fun j => !decide (j = i)),
              db := s1.db.filter (fun r => !decide (r.id = i)),
              connInfo := s1.connInfo.filter (fun j => !decide (j = i)) }

/-- The externally visible download-manager events. -/
inductive DMEvent
  | start (p : StartParams)
  | pause (i : Nat)
  | settle (i : Nat)
  | resume (i : Nat)
  | cancel (i : Nat)
  | finish (i : Nat)
  | fail (i : Nat)
deriving DecidableEq, Repr

/-- Apply one event. -/
def dmStep (s : DMState) : DMEvent → DMState
  | .start p => (startDownload p s).2
  | .pause i => pauseDownload i s
  | .settle i => settleAborted i s
  | .resume i => (resumeDownload i s).2
  | .cancel i => cancelDownload i s
  | .finish i => finishTransfer i s
  | .fail i => failTransfer i s

/-- Run an event sequence. -/
def dmRun (s : DMState) (es : List DMEvent) : DMState := es.foldl dmStep s

/-- Fresh manager state. -/
def dmInit : DMState := ⟨[], [], 0, [], [], []⟩

/-- Event sequence breaking the concurrency cap: fill the three slots,
queue a fourth download, pause the first active transfer (first slot
release), let the aborted transfer settle (second slot release for the same
transfer, admitting the fourth), then start a fifth download, which is
admitted immediately — leaving four live streams. -/
def c1Trace : List DMEvent :=
  [DMEvent.start ⟨1, 101, 9⟩, DMEvent.start ⟨2, 102, 9⟩,
    DMEvent.start ⟨3, 103, 9⟩, DMEvent.start ⟨4, 104, 9⟩,
    DMEvent.pause 1, DMEvent.settle 1, DMEvent.start ⟨5, 105, 9⟩]

/-- Claim C1 is violated by the code: pausing an active transfer releases
its concurrency slot twice — once in pauseDownload and once more in
processDownload's finally block when the aborted transfer settles — after
which the queue drain admits transfers beyond the cap: the trace above ends
with four simultaneous active transfers against a cap of three. -/
theorem concurrency_cap_violated :
    MAX_CONCURRENT_DOWNLOADS = 3 ∧
    (dmRun dmInit c1Trace).streams.length = 4 := by
  constructor
  · rfl
  · decide

/-! Claim C10: processQueue never starts a dequeued entry whose record is
missing, paused or completed; such entries are discarded without occupying
a concurrency slot, and their persisted status is untouched. -/

/-- Status of the row with a given id. -/
def statusOf (db : List DRec) (i : Nat) : Option DStatus :=
  (getDownloadById db i).map (fun r => r.status)

theorem getDownloadById_setStatus_ne (db : List DRec) (i j : Nat)
    (st : DStatus) (h : i ≠ j) :
    getDownloadById (setStatus db j st) i = getDownloadById db i := by
  induction db with
  | nil => rfl
  | cons r rs ih =>
    rw [setStatus]
    by_cases hr : r.id = j
    · have hri : ¬ r.id = i := fun hh => h (by rw [← hh]; exact hr)
      rw [if_pos hr, getDownloadById, getDownloadById,
        if_neg (show ¬ ({ r with status := st } : DRec).id = i from hri),
        if_neg hri]
      exact ih
    · rw [if_neg hr, getDownloadById, getDownloadById]
      by_cases hri : r.id = i
      · rw [if_pos hri, if_pos hri]
      · rw [if_neg hri, if_neg hri]
        exact ih

theorem getDownloadById_setStatus_self (db : List DRec) (i : Nat)
    (st : DStatus) :
    getDownloadById (setStatus db i st) i =
      (getDownloadById db i).map (fun r => { r with status := st }) := by
  induction db with
  | nil => rfl
  | cons r rs ih =>
    rw [setStatus]
    by_cases hr : r.id = i
    · rw [if_pos hr, getDownloadById, getDownloadById,
        if_pos (show ({ r with status := st } : DRec).id = i from hr),
        if_pos hr]
      rfl
    · rw [if_neg hr, getDownloadById, getDownloadById, if_neg hr, if_neg hr]
      exact ih

theorem statusOf_setStatus_ne (db : List DRec) (i j : Nat) (st : DStatus)
    (h : i ≠ j) : statusOf (setStatus db j st) i = statusOf db i := by
  rw [statusOf, getDownloadById_setStatus_ne db i j st h, statusOf]

/-- Stale queue entries (missing record, paused, completed) are never
started by a queue drain and their status is never changed by it. -/
theorem processQueueAux_stale (fuel : Nat) :
    ∀ s : DMState, ∀ i : Nat,
      (statusOf s.db i = none ∨ statusOf s.db i = some DStatus.paused ∨
        statusOf s.db i = some DStatus.completed) →
      statusOf (processQueueAux fuel s).db i = statusOf s.db i ∧
      (i ∉ s.streams → i ∉ (processQueueAux fuel s).streams) := by
  induction fuel with
  | zero => intro s i _; exact ⟨rfl, fun h => h⟩
  | succ fuel ih =>
    intro s i h
    rw [processQueueAux]
    by_cases hact : s.active < MAX_CONCURRENT_DOWNLOADS
    · rw [if_pos hact]
      cases hq : s.queue with
      | nil => exact ⟨rfl, fun hh => hh⟩
      | cons did rest =>
        dsimp only
        cases hget : getDownloadById s.db did with
        | none =>
          exact ih { s with queue := rest } i h
        | some r =>
          dsimp only
          by_cases hstale : r.status = DStatus.paused ∨
              r.status = DStatus.completed
          · rw [if_pos hstale]
            exact ih { s with queue := rest } i h
          · rw [if_neg hstale]
            have hne : i ≠ did := by
              intro he
              subst he
              rw [statusOf, hget] at h
              simp at h
              exact hstale h
            by_cases hconn : did ∈ s.connInfo
            · rw [if_pos hconn]
              have h2 := ih { s with
                queue := rest,
                active := s.active + 1,
                db := setStatus s.db did DStatus.downloading,
                streams := did :: s.streams } i
                (by
                  simpa [statusOf_setStatus_ne s.db i did _ hne] using h)
              rw [statusOf_setStatus_ne s.db i did _ hne] at h2
              refine ⟨h2.1, fun hni => h2.2 ?_⟩
              simp only [List.mem_cons]
              rintro (he | hmem)
              · exact hne he
              · exact hni hmem
            · rw [if_neg hconn]
              have h2 := ih { s with
                queue := rest,
                db := setStatus s.db did DStatus.failed } i
                (by
                  simpa [statusOf_setStatus_ne s.db i did _ hne] using h)
              rw [statusOf_setStatus_ne s.db i did _ hne] at h2
              exact h2
    · rw [if_neg hact]
      exact ⟨rfl, fun hh => hh⟩

/-- A queue drain changes the active counter by exactly the number of
streams it starts. -/
theorem processQueueAux_active (fuel : Nat) :
    ∀ s : DMState,
      (processQueueAux fuel s).active + (s.streams.length : Int) =
        s.active + ((processQueueAux fuel s).streams.length : Int) := by
  induction fuel with
  | zero => intro s; rfl
  | succ fuel ih =>
    intro s
    rw [processQueueAux]
    by_cases hact : s.active < MAX_CONCURRENT_DOWNLOADS
    · rw [if_pos hact]
      cases hq : s.queue with
      | nil => rfl
      | cons did rest =>
        dsimp only
        cases hget : getDownloadById s.db did with
        | none => exact ih { s with queue := rest }
        | some r =>
          dsimp only
          by_cases hstale : r.status = DStatus.paused ∨
              r.status = DStatus.completed
          · rw [if_pos hstale]
            exact ih { s with queue := rest }
          · rw [if_neg hstale]
            by_cases hconn : did ∈ s.connInfo
            · rw [if_pos hconn]
              have h2 := ih { s with
                queue := rest,
                active := s.active + 1,
                db := setStatus s.db did DStatus.downloading,
                streams := did :: s.streams }
              simp only [List.length_cons] at h2 ⊢
              omega
            · rw [if_neg hconn]
              exact ih { s with
                queue := rest,
                db := setStatus s.db did DStatus.failed }
    · rw [if_neg hact]

/-- Claim C10: a dequeued entry whose persisted status is paused or
completed (or whose record no longer exists) at dequeue time is discarded
by processQueue: it is never started (it appears in no stream), its status
is untouched, and it occupies no concurrency slot (the counter moves
exactly with the started streams). -/
theorem processQueue_skips_stale (s : DMState) (i : Nat)
    (hstale : statusOf s.db i = none ∨ statusOf s.db i = some DStatus.paused ∨
      statusOf s.db i = some DStatus.completed)
    (hni : i ∉ s.streams) :
    i ∉ (processQueue s).streams ∧
    statusOf (processQueue s).db i = statusOf s.db i ∧
    (processQueue s).active + (s.streams.length : Int) =
      s.active + ((processQueue s).streams.length : Int) := by
  have h1 := processQueueAux_stale s.queue.length s i hstale
  have h2 := processQueueAux_active s.queue.length s
  exact ⟨h1.2 hni, h1.1, h2⟩

/-- Concrete state for the C10 witness: a paused record is waiting in the
queue with a free slot and valid connection info. -/
def c10State : DMState :=
  { db := [{ id := 1, fileId := 7, deviceId := 9, status := DStatus.paused }],
    queue := [1], active := 0, streams := [], pending := [], connInfo := [1] }

theorem processQueue_skips_stale_witness :
    (statusOf c10State.db 1 = none ∨
      statusOf c10State.db 1 = some DStatus.paused ∨
      statusOf c10State.db 1 = some DStatus.completed) ∧
    (1 ∉ c10State.streams) ∧
    (1 ∉ (processQueue c10State).streams ∧
      statusOf (processQueue c10State).db 1 = statusOf c10State.db 1 ∧
      (processQueue c10State).active + (c10State.streams.length : Int) =
        c10State.active + ((processQueue c10State).streams.length : Int)) :=
  ⟨by decide, by decide,
    processQueue_skips_stale c10State 1 (by decide) (by decide)⟩

/-! Claim C2: idempotence of startDownload.  The source checks only the
statuses queued / downloading / completed, so a paused record does not
block a duplicate — the claim as stated is falsified below, and the
amended statement (with the paused case removed) is proved. -/

/-- Counterexample state: one paused record for the pair (7, 9). -/
def c2State : DMState :=
  { db := [{ id := 1, fileId := 7, deviceId := 9, status := DStatus.paused }],
    queue := [], active := 0, streams := [], pending := [], connInfo := [] }

/-- Claim C2 as stated is false: for a (fileId, sourcePeerId) pair with an
existing non-terminal record in status paused, startDownload creates a
second record instead of returning the existing one. -/
theorem startDownload_paused_duplicate :
    countPair c2State.db 7 9 = 1 ∧
    countPair (startDownload ⟨2, 7, 9⟩ c2State).2.db 7 9 = 2 ∧
    (startDownload ⟨2, 7, 9⟩ c2State).1.id ≠ 1 := by
  decide

theorem countPair_setStatus (db : List DRec) (j : Nat) (st : DStatus)
    (fid did : Nat) :
    countPair (setStatus db j st) fid did = countPair db fid did := by
  induction db with
  | nil => rfl
  | cons r rs ih =>
    rw [setStatus]
    by_cases hr : r.id = j
    · rw [if_pos hr]
      simp only [countPair, List.filter_cons] at ih ⊢
      by_cases hp : (decide (r.fileId = fid) && decide (r.deviceId = did)) = true
      · rw [if_pos (show (decide (({ r with status := st } : DRec).fileId = fid)
              && decide (({ r with status := st } : DRec).deviceId = did)) =
              true from hp),
          if_pos hp]
        simp only [List.length_cons]
        rw [ih]
      · rw [if_neg (show ¬ (decide (({ r with status := st } : DRec).fileId = fid)
              && decide (({ r with status := st } : DRec).deviceId = did)) =
              true from hp),
          if_neg hp]
        exact ih
    · rw [if_neg hr]
      simp only [countPair, List.filter_cons] at ih ⊢
      by_cases hp : (decide (r.fileId = fid) && decide (r.deviceId = did)) = true
      · rw [if_pos hp, if_pos hp]
        simp only [List.length_cons]
        rw [ih]
      · rw [if_neg hp, if_neg hp]
        exact ih

theorem countPair_processQueueAux (fuel : Nat) :
    ∀ s : DMState, ∀ fid did : Nat,
      countPair (processQueueAux fuel s).db fid did =
        countPair s.db fid did := by
  induction fuel with
  | zero => intro s fid did; rfl
  | succ fuel ih =>
    intro s fid did
    rw [processQueueAux]
    by_cases hact : s.active < MAX_CONCURRENT_DOWNLOADS
    · rw [if_pos hact]
      cases hq : s.queue with
      | nil => rfl
      | cons did2 rest =>
        dsimp only
        cases hget : getDownloadById s.db did2 with
        | none => exact ih { s with queue := rest } fid did
        | some r =>
          dsimp only
          by_cases hstale : r.status = DStatus.paused ∨
              r.status = DStatus.completed
          · rw [if_pos hstale]
            exact ih { s with queue := rest } fid did
          · rw [if_neg hstale]
            by_cases hconn : did2 ∈ s.connInfo
            · rw [if_pos hconn]
              rw [ih]
              exact countPair_setStatus s.db did2 DStatus.downloading fid did
            · rw [if_neg hconn]
              rw [ih]
              exact countPair_setStatus s.db did2 DStatus.failed fid did
    · rw [if_neg hact]

theorem countPair_append (db : List DRec) (r : DRec) (fid did : Nat)
    (hf : r.fileId = fid) (hd : r.deviceId = did) :
    countPair (db ++ [r]) fid did = countPair db fid did + 1 := by
  simp only [countPair, List.filter_append]
  rw [List.length_append]
  simp [List.filter, hf, hd]

theorem isFileDownloaded_of_countPair_zero (db : List DRec) (fid did : Nat)
    (h : countPair db fid did = 0) : isFileDownloaded db fid did = none := by
  induction db with
  | nil => rfl
  | cons r rs ih =>
    simp only [countPair, List.filter] at h
    by_cases hp : (decide (r.fileId = fid) && decide (r.deviceId = did)) = true
    · simp only [hp, List.length_cons] at h
      exact absurd h (by omega)
    · simp only [hp] at h
      simp only [Bool.and_eq_true, decide_eq_true_eq] at hp
      rw [isFileDownloaded, if_neg (by tauto)]
      exact ih h

theorem isFileDownloaded_isSome (db : List DRec) (fid did : Nat) (r : DRec)
    (hmem : r ∈ db) (hf : r.fileId = fid) (hd : r.deviceId = did)
    (hst : r.status = DStatus.queued ∨ r.status = DStatus.downloading ∨
      r.status = DStatus.completed) :
    ∃ r2, isFileDownloaded db fid did = some r2 := by
  induction db with
  | nil => exact absurd hmem (List.not_mem_nil r)
  | cons x xs ih =>
    rw [isFileDownloaded]
    by_cases hx : x.fileId = fid ∧ x.deviceId = did ∧
        (x.status = DStatus.queued ∨ x.status = DStatus.downloading ∨
          x.status = DStatus.completed)
    · rw [if_pos hx]
      exact ⟨x, rfl⟩
    · rw [if_neg hx]
      rcases List.mem_cons.mp hmem with he | hmem2
      · subst he
        exact absurd ⟨hf, hd, hst⟩ hx
      · exact ih hmem2

theorem getDownloadById_append_fresh (db : List DRec) (r : DRec)
    (hfresh : ∀ x ∈ db, x.id ≠ r.id) :
    getDownloadById (db ++ [r]) r.id = some r := by
  induction db with
  | nil => simp [getDownloadById]
  | cons x xs ih =>
    have hx : x.id ≠ r.id := hfresh x (List.mem_cons_self x xs)
    simp only [List.cons_append, getDownloadById, if_neg hx]
    exact ih (fun y hy => hfresh y (List.mem_cons_of_mem x hy))

theorem getDownloadById_mem (db : List DRec) (i : Nat) (r : DRec)
    (h : getDownloadById db i = some r) : r ∈ db := by
  induction db with
  | nil => exact absurd h (by simp [getDownloadById])
  | cons x xs ih =>
    rw [getDownloadById] at h
    by_cases hx : x.id = i
    · rw [if_pos hx] at h
      exact List.mem_cons.mpr (Or.inl ((Option.some.injEq _ _).mp h).symm)
    · rw [if_neg hx] at h
      exact List.mem_cons.mpr (Or.inr (ih h))

/-- A queued-or-downloading record with connection info never ends a queue
drain paused, completed, failed or deleted: its row survives with the same
identity fields in status queued or downloading. -/
theorem processQueueAux_conn (fuel : Nat) :
    ∀ s : DMState, ∀ i : Nat, ∀ r : DRec, i ∈ s.connInfo →
      getDownloadById s.db i = some r →
      (r.status = DStatus.queued ∨ r.status = DStatus.downloading) →
      ∃ st, (st = DStatus.queued ∨ st = DStatus.downloading) ∧
        getDownloadById (processQueueAux fuel s).db i =
          some { r with status := st } := by
  induction fuel with
  | zero =>
    intro s i r _ hget hst
    exact ⟨r.status, hst, hget⟩
  | succ fuel ih =>
    intro s i r hconn hget hst
    rw [processQueueAux]
    by_cases hact : s.active < MAX_CONCURRENT_DOWNLOADS
    · rw [if_pos hact]
      cases hq : s.queue with
      | nil => exact ⟨r.status, hst, hget⟩
      | cons did rest =>
        dsimp only
        cases hget2 : getDownloadById s.db did with
        | none =>
          exact ih { s with queue := rest } i r hconn hget hst
        | some r2 =>
          dsimp only
          by_cases hstale : r2.status = DStatus.paused ∨
              r2.status = DStatus.completed
          · rw [if_pos hstale]
            exact ih { s with queue := rest } i r hconn hget hst
          · rw [if_neg hstale]
            by_cases hconn2 : did ∈ s.connInfo
            · rw [if_pos hconn2]
              by_cases hne : i = did
              · subst hne
                have hrr : r2 = r := by
                  rw [hget] at hget2
                  exact ((Option.some.injEq _ _).mp hget2).symm
                subst hrr
                have hget3 : getDownloadById
                    (setStatus s.db i DStatus.downloading) i =
                    some { r2 with status := DStatus.downloading } := by
                  rw [getDownloadById_setStatus_self, hget]
                  rfl
                obtain ⟨st, hst2, hget4⟩ := ih { s with
                queue := rest,
                  active := s.active + 1,
                  db := setStatus s.db i DStatus.downloading,
                  streams := i :: s.streams } i
                  { r2 with status := DStatus.downloading }
                  hconn hget3 (Or.inr rfl)
                exact ⟨st, hst2, hget4⟩
              · have hget3 : getDownloadById
                    (setStatus s.db did DStatus.downloading) i = some r := by
                  rw [getDownloadById_setStatus_ne _ _ _ _ hne, hget]
                exact ih { s with
                queue := rest,
                  active := s.active + 1,
                  db := setStatus s.db did DStatus.downloading,
                  streams := did :: s.streams } i r hconn hget3 hst
            · rw [if_neg hconn2]
              have hne : i ≠ did := fun he => hconn2 (he ▸ hconn)
              have hget3 : getDownloadById
                  (setStatus s.db did DStatus.failed) i = some r := by
                rw [getDownloadById_setStatus_ne _ _ _ _ hne, hget]
              exact ih { s with
                queue := rest,
                db := setStatus s.db did DStatus.failed } i r hconn hget3 hst
    · rw [if_neg hact]
      exact ⟨r.status, hst, hget⟩

/-- The record created by startDownload for fresh parameters. -/
def newDownloadRec (p : StartParams) : DRec :=
  { id := p.id, fileId := p.fileId, deviceId := p.deviceId,
    status := DStatus.queued }

/-- The state startDownload builds before its queue drain when no blocking
record exists. -/
def startEnqueue (p : StartParams) (s : DMState) : DMState :=
  { s with
    db := s.db ++ [newDownloadRec p],
    connInfo := p.id :: s.connInfo,
    queue := s.queue ++ [p.id] }

/-- Claim C2 amended: a queued, downloading or completed record for the
(fileId, sourcePeerId) pair blocks a duplicate — startDownload returns the
existing record and changes nothing (a paused record does not block, see
the counterexample).  In particular, starting twice for a pair with no
prior record yields exactly one record: the second call returns without
creating anything. -/
theorem startDownload_idempotent (s : DMState) (p q : StartParams)
    (hpq : q.fileId = p.fileId ∧ q.deviceId = p.deviceId)
    (hfresh : ∀ x ∈ s.db, x.id ≠ p.id)
    (hcount : countPair s.db p.fileId p.deviceId = 0) :
    (∀ r, isFileDownloaded s.db p.fileId p.deviceId = some r →
      startDownload p s = (r, s)) ∧
    countPair (startDownload p s).2.db p.fileId p.deviceId = 1 ∧
    (startDownload q (startDownload p s).2).2 = (startDownload p s).2 ∧
    countPair (startDownload q (startDownload p s).2).2.db
      p.fileId p.deviceId = 1 := by
  have hnone : isFileDownloaded s.db p.fileId p.deviceId = none :=
    isFileDownloaded_of_countPair_zero s.db p.fileId p.deviceId hcount
  have hret : ∀ (s2 : DMState) (r : DRec),
      isFileDownloaded s2.db p.fileId p.deviceId = some r →
      startDownload p s2 = (r, s2) := by
    intro s2 r h
    rw [startDownload, h]
  have hG1 : countPair (startDownload p s).2.db p.fileId p.deviceId = 1 := by
    rw [startDownload, hnone]
    show countPair
      (processQueue (startEnqueue p s)).db p.fileId p.deviceId = 1
    rw [processQueue, countPair_processQueueAux]
    show countPair (s.db ++ [newDownloadRec p]) p.fileId p.deviceId = 1
    rw [countPair_append s.db _ p.fileId p.deviceId rfl rfl, hcount]
  have hS2 : ∃ st, (st = DStatus.queued ∨ st = DStatus.downloading) ∧
      getDownloadById (startDownload p s).2.db p.id =
        some { newDownloadRec p with status := st } := by
    rw [startDownload, hnone]
    show ∃ st, (st = DStatus.queued ∨ st = DStatus.downloading) ∧
      getDownloadById (processQueue (startEnqueue p s)).db p.id =
        some { newDownloadRec p with status := st }
    rw [processQueue]
    have hget1 : getDownloadById
        (s.db ++ [newDownloadRec p]) p.id = some (newDownloadRec p) :=
      getDownloadById_append_fresh s.db _ (fun x hx => hfresh x hx)
    exact processQueueAux_conn _ (startEnqueue p s) p.id _
      (List.mem_cons_self _ _) hget1 (Or.inl rfl)
  have hsome : ∃ r2, isFileDownloaded (startDownload p s).2.db
      p.fileId p.deviceId = some r2 := by
    obtain ⟨st, hst, hget⟩ := hS2
    refine isFileDownloaded_isSome _ _ _ _
      (getDownloadById_mem _ _ _ hget) rfl rfl ?_
    rcases hst with h | h
    · exact Or.inl h
    · exact Or.inr (Or.inl h)
  have hG2 : (startDownload q (startDownload p s).2).2 =
      (startDownload p s).2 := by
    obtain ⟨r2, h2⟩ := hsome
    have h2q : isFileDownloaded (startDownload p s).2.db
        q.fileId q.deviceId = some r2 := by
      rw [hpq.1, hpq.2]
      exact h2
    rw [startDownload, h2q]
  have hG3 : countPair (startDownload q (startDownload p s).2).2.db
      p.fileId p.deviceId = 1 := by
    rw [hG2]
    exact hG1
  exact ⟨fun r h => hret s r h, hG1, hG2, hG3⟩

/-- Concrete parameters for the C2 amended-claim witness. -/
def sp1 : StartParams := ⟨1, 7, 9⟩

/-- Second-call parameters (same pair, fresh id) for the C2 witness. -/
def sp2 : StartParams := ⟨2, 7, 9⟩

theorem startDownload_idempotent_witness :
    (sp2.fileId = sp1.fileId ∧ sp2.deviceId = sp1.deviceId) ∧
    ((∀ r, isFileDownloaded dmInit.db sp1.fileId sp1.deviceId = some r →
        startDownload sp1 dmInit = (r, dmInit)) ∧
      countPair (startDownload sp1 dmInit).2.db sp1.fileId sp1.deviceId = 1 ∧
      (startDownload sp2 (startDownload sp1 dmInit).2).2 =
        (startDownload sp1 dmInit).2 ∧
      countPair (startDownload sp2 (startDownload sp1 dmInit).2).2.db
        sp1.fileId sp1.deviceId = 1) :=
  ⟨by decide,
    startDownload_idempotent dmInit sp1 sp2 (by decide) (by decide)
      (by decide)⟩

/-! ### Serving API stream/download handlers (electron/preload.ts,
handleStream and handleDownload)

A handler's observable output is its status, headers and the byte span it
pipes from `fs.createReadStream`; the embedding returns that as a record.
The unknown-id 404 path is `errorJson`. -/

/-- The resolved file behind a known content id. -/
structure ServedFile where
  name : List Char
  size : Nat
deriving DecidableEq, Repr

/-- What the handler pipes as the response body: the whole file, the
inclusive byte span handed to `fs.createReadStream`, or the JSON error
document. -/
inductive BodySpec
  | whole
  | span (start endv : JNum)
  | errorJson
deriving DecidableEq, Repr

/-- Observable handler response. -/
structure HttpResp where
  status : Nat
  contentRange : Option (List Char)
  contentLength : JNum
  contentDisposition : Option (List Char)
  body : BodySpec
deriving DecidableEq, Repr

/-- The range parsing both handlers share:
`range.replace(/bytes=/, '').split('-')`, `parseInt` on the first part, and
`parts[1] ? parseInt(parts[1], 10) : fileSize - 1` (an absent or empty
second part is falsy). -/
def parseRangeStart (fileSize : Nat) (range : List Char) : JNum × JNum :=
  let parts := jsSplit '-' (replFirst "bytes=".data range)
  let start := jsParseInt (parts.getD 0 [])
  let endv : JNum :=
    if (parts.getD 1 []).isEmpty then some ((fileSize : Int) - 1)
    else jsParseInt (parts.getD 1 [])
  (start, endv)

/-- The Content-Range header value `bytes ${start}-${end}/${fileSize}`. -/
def contentRangeStr (st en : JNum) (fileSize : Nat) : List Char :=
  "bytes ".data ++ jStr st ++ "-".data ++ jStr en ++ "/".data ++
    natDigits fileSize

/-- Characters `encodeURIComponent` leaves unescaped. -/
def isUnreservedUri (c : Char) : Bool :=
  c.isAlpha || c.isDigit || c = '-' || c = '_' || c = '.' || c = '!' ||
    c = '~' || c = '*' || c = Char.ofNat 39 || c = '(' || c = ')'

/-- UTF-8 bytes of a code point. -/
def utf8Bytes (n : Nat) : List Nat :=
  if n < 128 then [n]
  else if n < 2048 then [192 + n / 64, 128 + n % 64]
  else if n < 65536 then [224 + n / 4096, 128 + n / 64 % 64, 128 + n % 64]
  else [240 + n / 262144, 128 + n / 4096 % 64, 128 + n / 64 % 64,
    128 + n % 64]

/-- Uppercase hexadecimal digit. -/
def hexDigitU (d : Nat) : Char :=
  if d < 10 then digitChar d else Char.ofNat (55 + d)

/-- Percent-encoding of one byte. -/
def pctByte (b : Nat) : List Char := ['%', hexDigitU (b / 16), hexDigitU (b % 16)]

/-- JS `encodeURIComponent`. -/
def encodeURIComponent (s : List Char) : List Char :=
  (s.map (fun c =>
    if isUnreservedUri c then [c]
    else ((utf8Bytes c.toNat).map pctByte).flatten)).flatten

/-- The Content-Disposition value
`attachment; filename="${encodeURIComponent(file.name)}"`. -/
def attachmentDisposition (name : List Char) : List Char :=
  "attachment; filename=\"".data ++ encodeURIComponent name ++ ['"']

/-- GET /api/v1/stream/:fileId. -/
def handleStream (file : Option ServedFile) (range : Option (List Char)) :
    HttpResp :=
  match file with
  | none =>
    { status := 404, contentRange := none, contentLength := none,
      contentDisposition := none, body := BodySpec.errorJson }
  | some f =>
    match range with
    | some r =>
      let p := parseRangeStart f.size r
      { status := 206,
        contentRange := some (contentRangeStr p.1 p.2 f.size),
        contentLength := jAdd (jSub p.2 p.1) (some 1),
        contentDisposition := none,
        body := BodySpec.span p.1 p.2 }
    | none =>
      { status := 200, contentRange := none,
        contentLength := some (f.size : Int),
        contentDisposition := none, body := BodySpec.whole }

/-- GET /api/v1/download/:fileId: identical range handling plus the
attachment Content-Disposition on both paths. -/
def handleDownload (file : Option ServedFile) (range : Option (List Char)) :
    HttpResp :=
  match file with
  | none =>
    { status := 404, contentRange := none, contentLength := none,
      contentDisposition := none, body := BodySpec.errorJson }
  | some f =>
    match range with
    | some r =>
      let p := parseRangeStart f.size r
      { status := 206,
        contentRange := some (contentRangeStr p.1 p.2 f.size),
        contentLength := jAdd (jSub p.2 p.1) (some 1),
        contentDisposition := some (attachmentDisposition f.name),
        body := BodySpec.span p.1 p.2 }
    | none =>
      { status := 200, contentRange := none,
        contentLength := some (f.size : Int),
        contentDisposition := some (attachmentDisposition f.name),
        body := BodySpec.whole }

/-- Bytes actually served for a body spec against a file of `fileSize`
bytes: `fs.createReadStream` with an inclusive `start..end` span delivers
the bytes whose index is in the span and below the file size. -/
def bodyBytes (fileSize : Nat) : BodySpec → Nat
  | BodySpec.whole => fileSize
  | BodySpec.span (some a) (some b) =>
    (min b ((fileSize : Int) - 1) - max a 0 + 1).toNat
  | _ => 0

/-- The open-ended range header `bytes=N-`. -/
def rangeHeaderFrom (n : Nat) : List Char :=
  "bytes=".data ++ natDigits n ++ ['-']

theorem parseRangeStart_open (S N : Nat) :
    parseRangeStart S (rangeHeaderFrom N) =
      (some (N : Int), some ((S : Int) - 1)) := by
  have h1 : replFirst "bytes=".data ("bytes=".data ++ (natDigits N ++ ['-'])) =
      natDigits N ++ ['-'] :=
    replFirst_cancel "bytes=".data (natDigits N ++ ['-']) (by decide)
  have h2 : jsSplit '-' (natDigits N ++ ['-']) = [natDigits N, []] :=
    jsSplit_digits_dash (natDigits N)
      (fun c hc => (isDigit_not_special c (natDigits_all_digit N c hc)).2.1)
  rw [parseRangeStart, rangeHeaderFrom, List.append_assoc, h1, h2]
  simp only [List.getD, List.get?, Option.getD_some]
  rw [jsParseInt_natDigits]
  rfl

theorem jStr_natCast (n : Nat) : jStr (some (n : Int)) = natDigits n := by
  simp only [jStr, intStr]
  rw [if_neg (by omega), Int.toNat_natCast]

/-- Claim C3: for a known id backing a file of S bytes, `Range: bytes=N-`
(0 ≤ N < S) yields 206 with exactly S−N body bytes, Content-Range
`bytes N-(S-1)/S` and Content-Length S−N; no Range yields 200 with all S
bytes — on both the stream and the download endpoint — and the download
endpoint sets the attachment Content-Disposition naming the file in both
cases. -/
theorem range_contract (S N : Nat) (fname : List Char) (hNS : N < S) :
    (handleStream (some ⟨fname, S⟩) (some (rangeHeaderFrom N))).status =
      206 ∧
    bodyBytes S
      (handleStream (some ⟨fname, S⟩) (some (rangeHeaderFrom N))).body =
      S - N ∧
    (handleStream (some ⟨fname, S⟩)
        (some (rangeHeaderFrom N))).contentRange =
      some ("bytes ".data ++ natDigits N ++ "-".data ++ natDigits (S - 1) ++
        "/".data ++ natDigits S) ∧
    (handleStream (some ⟨fname, S⟩)
        (some (rangeHeaderFrom N))).contentLength = some ((S : Int) - N) ∧
    (handleStream (some ⟨fname, S⟩) none).status = 200 ∧
    bodyBytes S (handleStream (some ⟨fname, S⟩) none).body = S ∧
    (handleStream (some ⟨fname, S⟩) none).contentLength = some (S : Int) ∧
    (handleDownload (some ⟨fname, S⟩) (some (rangeHeaderFrom N))).status =
      206 ∧
    bodyBytes S
      (handleDownload (some ⟨fname, S⟩) (some (rangeHeaderFrom N))).body =
      S - N ∧
    (handleDownload (some ⟨fname, S⟩)
        (some (rangeHeaderFrom N))).contentRange =
      some ("bytes ".data ++ natDigits N ++ "-".data ++ natDigits (S - 1) ++
        "/".data ++ natDigits S) ∧
    (handleDownload (some ⟨fname, S⟩) none).status = 200 ∧
    bodyBytes S (handleDownload (some ⟨fname, S⟩) none).body = S ∧
    (handleDownload (some ⟨fname, S⟩)
        (some (rangeHeaderFrom N))).contentDisposition =
      some (attachmentDisposition fname) ∧
    (handleDownload (some ⟨fname, S⟩) none).contentDisposition =
      some (attachmentDisposition fname) := by
  have hp := parseRangeStart_open S N
  have hS1 : ((S : Int) - 1).toNat = S - 1 := by omega
  have hcr : contentRangeStr (some (N : Int)) (some ((S : Int) - 1)) S =
      "bytes ".data ++ natDigits N ++ "-".data ++ natDigits (S - 1) ++
        "/".data ++ natDigits S := by
    rw [contentRangeStr, jStr_natCast]
    have h2 : jStr (some ((S : Int) - 1)) = natDigits (S - 1) := by
      simp only [jStr, intStr]
      rw [if_neg (by omega), hS1]
    rw [h2]
  have hbody : bodyBytes S
      (BodySpec.span (some (N : Int)) (some ((S : Int) - 1))) = S - N := by
    simp only [bodyBytes]
    omega
  have hlen : jAdd (jSub (some ((S : Int) - 1)) (some (N : Int)))
      (some 1) = some ((S : Int) - N) := by
    simp only [jAdd, jSub]
    congr 1
    omega
  refine ⟨?_, ?_, ?_, ?_, rfl, rfl, rfl, ?_, ?_, ?_, rfl, rfl, ?_, rfl⟩
  · simp only [handleStream, hp]
  · simp only [handleStream, hp]
    exact hbody
  · simp only [handleStream, hp]
    rw [hcr]
  · simp only [handleStream, hp]
    exact hlen
  · simp only [handleDownload, hp]
  · simp only [handleDownload, hp]
    exact hbody
  · simp only [handleDownload, hp]
    rw [hcr]
  · simp only [handleDownload, hp]

theorem range_contract_witness :
    100 < 1000 ∧
    ((handleStream (some ⟨"movie.mp4".data, 1000⟩)
        (some (rangeHeaderFrom 100))).status = 206 ∧
      bodyBytes 1000
        (handleStream (some ⟨"movie.mp4".data, 1000⟩)
          (some (rangeHeaderFrom 100))).body = 1000 - 100 ∧
      (handleStream (some ⟨"movie.mp4".data, 1000⟩)
          (some (rangeHeaderFrom 100))).contentRange =
        some ("bytes ".data ++ natDigits 100 ++ "-".data ++
          natDigits (1000 - 1) ++ "/".data ++ natDigits 1000) ∧
      (handleStream (some ⟨"movie.mp4".data, 1000⟩)
          (some (rangeHeaderFrom 100))).contentLength =
        some ((1000 : Int) - 100) ∧
      (handleStream (some ⟨"movie.mp4".data, 1000⟩) none).status = 200 ∧
      bodyBytes 1000
        (handleStream (some ⟨"movie.mp4".data, 1000⟩) none).body = 1000 ∧
      (handleStream (some ⟨"movie.mp4".data, 1000⟩) none).contentLength =
        some (1000 : Int) ∧
      (handleDownload (some ⟨"movie.mp4".data, 1000⟩)
          (some (rangeHeaderFrom 100))).status = 206 ∧
      bodyBytes 1000
        (handleDownload (some ⟨"movie.mp4".data, 1000⟩)
          (some (rangeHeaderFrom 100))).body = 1000 - 100 ∧
      (handleDownload (some ⟨"movie.mp4".data, 1000⟩)
          (some (rangeHeaderFrom 100))).contentRange =
        some ("bytes ".data ++ natDigits 100 ++ "-".data ++
          natDigits (1000 - 1) ++ "/".data ++ natDigits 1000) ∧
      (handleDownload (some ⟨"movie.mp4".data, 1000⟩) none).status = 200 ∧
      bodyBytes 1000
        (handleDownload (some ⟨"movie.mp4".data, 1000⟩) none).body = 1000 ∧
      (handleDownload (some ⟨"movie.mp4".data, 1000⟩)
          (some (rangeHeaderFrom 100))).contentDisposition =
        some (attachmentDisposition "movie.mp4".data) ∧
      (handleDownload (some ⟨"movie.mp4".data, 1000⟩)
          none).contentDisposition =
        some (attachmentDisposition "movie.mp4".data)) :=
  ⟨by decide, range_contract 1000 100 "movie.mp4".data (by decide)⟩

/-- A malformed Range header whose first part is not numeric. -/
def malformedRange : List Char := "bytes=abc-".data

/-- Claim C9 as stated is false: a malformed Range header is not surfaced
as an error response — both handlers answer 206 (not a 4xx/5xx status)
with a NaN Content-Length. -/
theorem malformed_range_not_rejected :
    (handleStream (some ⟨"movie.mp4".data, 1000⟩)
        (some malformedRange)).status = 206 ∧
    ¬ 400 ≤ (handleStream (some ⟨"movie.mp4".data, 1000⟩)
        (some malformedRange)).status ∧
    (handleDownload (some ⟨"movie.mp4".data, 1000⟩)
        (some malformedRange)).status = 206 ∧
    (handleStream (some ⟨"movie.mp4".data, 1000⟩)
        (some malformedRange)).contentLength = none := by
  decide

/-- Claim C9 amended: the handlers perform no Range validation at all — for
every Range header whose start does not parse (JS parseInt yields NaN) they
still answer 206, with NaN propagated into Content-Length, rather than an
error response; the process survives only because the framework catches the
downstream stream error. -/
theorem range_not_validated (f : ServedFile) (r : List Char)
    (h : jsParseInt ((jsSplit '-' (replFirst "bytes=".data r)).getD 0 []) =
      none) :
    (handleStream (some f) (some r)).status = 206 ∧
    (handleStream (some f) (some r)).contentLength = none ∧
    (handleDownload (some f) (some r)).status = 206 ∧
    (handleDownload (some f) (some r)).contentLength = none := by
  have hst : (parseRangeStart f.size r).1 = none := h
  refine ⟨rfl, ?_, rfl, ?_⟩
  · show jAdd (jSub (parseRangeStart f.size r).2
      (parseRangeStart f.size r).1) (some 1) = none
    rw [hst]
    cases (parseRangeStart f.size r).2 <;> rfl
  · show jAdd (jSub (parseRangeStart f.size r).2
      (parseRangeStart f.size r).1) (some 1) = none
    rw [hst]
    cases (parseRangeStart f.size r).2 <;> rfl

theorem range_not_validated_witness :
    jsParseInt ((jsSplit '-'
        (replFirst "bytes=".data malformedRange)).getD 0 []) = none ∧
    ((handleStream (some ⟨"movie.mp4".data, 1000⟩)
        (some malformedRange)).status = 206 ∧
      (handleStream (some ⟨"movie.mp4".data, 1000⟩)
        (some malformedRange)).contentLength = none ∧
      (handleDownload (some ⟨"movie.mp4".data, 1000⟩)
        (some malformedRange)).status = 206 ∧
      (handleDownload (some ⟨"movie.mp4".data, 1000⟩)
        (some malformedRange)).contentLength = none) :=
  ⟨by decide, range_not_validated ⟨"movie.mp4".data, 1000⟩ malformedRange
    (by decide)⟩

/-! ### Discovery Service (the enhanced mdnsService with the name-encoding
workaround; `browser.on('up')` handler, decodeServiceName)

A received advertisement is a service record; the handler folds it into
the discovered-devices table (a JS Map modelled as an assoc list in
insertion order). -/

/-- The fields of a received bonjour service the handler reads. -/
structure UpService where
  name : List Char
  txtDeviceId : Option (List Char) := none
  txtPlatform : Option (List Char) := none
  txtIp : Option (List Char) := none
  txtDisplayName : Option (List Char) := none
  txtTemp : Option (List Char) := none
  addresses : List (List Char) := []
  port : Int := 0
deriving DecidableEq, Repr

/-- An entry of the discovered-devices table. -/
structure DiscoveredDevice where
  id : List Char
  name : List Char
  ip : List Char
  port : Int
  platform : List Char
deriving DecidableEq, Repr

/-- JS `a || b` for optional strings (undefined and the empty string are
falsy). -/
def jsOr (a : Option (List Char)) (b : List Char) : List Char :=
  match a with
  | some s => if s.isEmpty then b else s
  | none => b

/-- The result of decodeServiceName. -/
structure DecodedName where
  name : List Char
  port : Int
  ip : List Char
deriving DecidableEq, Repr

/-- `^\d+\.\d+\.\d+\.\d+$`: exactly four dot-separated nonempty digit
runs. -/
def dottedQuad (s : List Char) : Bool :=
  match jsSplit '.' s with
  | [a, b, c, d] =>
    !a.isEmpty && a.all Char.isDigit && !b.isEmpty && b.all Char.isDigit &&
      !c.isEmpty && c.all Char.isDigit && !d.isEmpty && d.all Char.isDigit
  | _ => false

/-- decodeServiceName: split on `_`; fewer than three segments fail; the
last segment with dashes turned into dots is the ip, `parseInt` of the
second-to-last is the port, the rest rejoined with `_` is the name; fail
when the port is NaN or the ip does not match the dotted-quad pattern. -/
def decodeServiceName (serviceName : List Char) : Option DecodedName :=
  let parts := jsSplit '_' serviceName
  if parts.length < 3 then none
  else
    let ip := (parts.getLastD []).map (fun c => if c = '-' then '.' else c)
    let port := jsParseInt (parts.getD (parts.length - 2) [])
    let nm := List.intercalate ['_'] (parts.take (parts.length - 2))
    match port with
    | none => none
    | some pv => if dottedQuad ip then some ⟨nm, pv, ip⟩ else none

/-- Maximal digit run from the head, at least one digit. -/
def eatDigits1 (l : List Char) : Option (List Char) :=
  let ds := l.takeWhile Char.isDigit
  if ds.isEmpty then none else some (l.drop ds.length)

/-- `name.match(/_\d+_\d+-\d+-\d+-\d+$/) !== null`, decided by parsing the
reversed string (digit runs are delimited by non-digits, so the greedy
reversed parse is exact). -/
def encodedTail (s : List Char) : Bool :=
  (do
    let r1 ← eatDigits1 s.reverse
    let r2 ← chOne (fun c => c = '-') r1
    let r3 ← eatDigits1 r2
    let r4 ← chOne (fun c => c = '-') r3
    let r5 ← eatDigits1 r4
    let r6 ← chOne (fun c => c = '-') r5
    let r7 ← eatDigits1 r6
    let r8 ← chOne (fun c => c = '_') r7
    let r9 ← eatDigits1 r8
    let _ ← chOne (fun c => c = '_') r9
    pure ()).isSome

/-- A display name counts as proper when it neither starts with `_` nor
ends in the encoded `_port_ip` format. -/
def properName (n : List Char) : Bool :=
  !(hasLead "_".data n) && !encodedTail n

/-- The handler's address/port/name resolution: the decoded service name
when the encoding parses, otherwise standard resolution (txt ip, first
IPv4 address, first address; the service's own port; txt display name or
the raw service name). -/
def resolvedInfo (svc : UpService) : List Char × Int × List Char :=
  match decodeServiceName svc.name with
  | some d => (d.ip, d.port, jsOr svc.txtDisplayName d.name)
  | none =>
    let ipv4 := svc.addresses.find? (fun a => !a.contains ':')
    let ip := jsOr svc.txtIp (jsOr ipv4 (jsOr svc.addresses.head? []))
    (ip, svc.port, jsOr svc.txtDisplayName svc.name)

/-- The deduplication loop over the live table: on an (ip, port) match,
keep the better-named entry — returning early without inserting when the
existing entry wins or both are alike, deleting the existing entry and
continuing when the new one wins.  Returns the table after deletions and
whether to proceed to the insert. -/
def dedupScan (dev : DiscoveredDevice) :
    List DiscoveredDevice → List DiscoveredDevice × Bool
  | [] => ([], true)
  | e :: rest =>
    if e.ip = dev.ip ∧ e.port = dev.port then
      let eb := properName e.name
      let nb := properName dev.name
      if eb && !nb then (e :: rest, false)
      else if nb && !eb then dedupScan dev rest
      else (e :: rest, false)
    else
      let res := dedupScan dev rest
      (e :: res.1, res.2)

/-- JS `Map.set` keyed by device id: replace in place or append. -/
def mapSet (tbl : List DiscoveredDevice) (d : DiscoveredDevice) :
    List DiscoveredDevice :=
  if tbl.any (fun e => decide (e.id = d.id)) then
    tbl.map (fun e => if e.id = d.id then d else e)
  else tbl ++ [d]

/-- The `browser.on('up')` handler: skip our own device id, skip temporary
services, resolve address/port/name (decoded or standard), skip our own
ip, deduplicate by (ip, port), insert. -/
def handleServiceUp (ourDeviceId ourLocalIp : List Char)
    (devices : List DiscoveredDevice) (svc : UpService) :
    List DiscoveredDevice :=
  if svc.txtDeviceId = some ourDeviceId then devices
  else if hasLead "_temp_".data svc.name = true ∨
      svc.txtTemp = some "true".data then devices
  else
    let ri := resolvedInfo svc
    if ri.1 = ourLocalIp then devices
    else
      let dev : DiscoveredDevice :=
        { id := jsOr svc.txtDeviceId svc.name,
          name := ri.2.2,
          ip := ri.1,
          port := ri.2.1,
          platform := jsOr svc.txtPlatform "windows".data }
      let res := dedupScan dev devices
      if res.2 then mapSet res.1 dev else res.1

/-- Claim C6: an advertisement whose embedded device id equals the local
device's id, or whose resolved address equals the local device's own
outbound address, is discarded — the discovered-devices table is returned
unchanged, so a device never shows up in its own device list. -/
theorem handleServiceUp_self_filter (ourId ourIp : List Char)
    (devices : List DiscoveredDevice) (svc : UpService)
    (h : svc.txtDeviceId = some ourId ∨ (resolvedInfo svc).1 = ourIp) :
    handleServiceUp ourId ourIp devices svc = devices := by
  rw [handleServiceUp]
  by_cases h1 : svc.txtDeviceId = some ourId
  · rw [if_pos h1]
  · rw [if_neg h1]
    have h2 : (resolvedInfo svc).1 = ourIp := h.resolve_left h1
    by_cases h3 : hasLead "_temp_".data svc.name = true ∨
        svc.txtTemp = some "true".data
    · rw [if_pos h3]
    · rw [if_neg h3]
      dsimp only
      rw [if_pos h2]

/-- A service advertising from this device's own address under a foreign
device id, for the C6 witness. -/
def svcSelfIp : UpService :=
  { name := "Other_8765_192-168-0-5".data,
    txtDeviceId := some "other-id".data,
    port := 8765 }

/-- An unrelated table entry for the C6 witness. -/
def someDevice : DiscoveredDevice :=
  { id := "peer-a".data, name := "Peer A".data, ip := "192.168.0.7".data,
    port := 9000, platform := "android".data }

theorem handleServiceUp_self_filter_witness :
    (svcSelfIp.txtDeviceId = some "my-id".data ∨
      (resolvedInfo svcSelfIp).1 = "192.168.0.5".data) ∧
    handleServiceUp "my-id".data "192.168.0.5".data [someDevice] svcSelfIp =
      [someDevice] :=
  ⟨by decide,
    handleServiceUp_self_filter "my-id".data "192.168.0.5".data
      [someDevice] svcSelfIp (by decide)⟩

/-- Claim C7 as stated is false: validation of the second-to-last segment
is only `!isNaN(parseInt(...))`, which accepts a segment that is not a
well-formed port number — `"x_80abc_1-2-3-4"` has the non-numeric port
segment `"80abc"`, yet the decoder trusts it and returns port 80. -/
theorem decodeServiceName_trusts_malformed_port :
    decodeServiceName "x_80abc_1-2-3-4".data =
      some ⟨"x".data, 80, "1.2.3.4".data⟩ ∧
    ¬ "80abc".data.all Char.isDigit = true := by
  decide

/-- Claim C7 amended: the decoder returns a result exactly when there are
at least three `_`-separated segments, JS `parseInt` of the second-to-last
yields a number (a leading-digits parse, so trailing garbage in the port
segment is accepted), and the dash-to-dot last segment matches
`^\d+\.\d+\.\d+\.\d+$`; whenever decoding fails, the up-handler falls back
to standard resolution of address and port from the transport layer. -/
theorem decodeServiceName_validation (s : List Char) (svc : UpService) :
    (decodeServiceName s = none ↔
      ((jsSplit '_' s).length < 3 ∨
        jsParseInt ((jsSplit '_' s).getD ((jsSplit '_' s).length - 2) []) =
          none ∨
        dottedQuad (((jsSplit '_' s).getLastD []).map
          (fun c => if c = '-' then '.' else c)) = false)) ∧
    (decodeServiceName svc.name = none →
      resolvedInfo svc =
        (jsOr svc.txtIp
          (jsOr (svc.addresses.find? (fun a => !a.contains ':'))
            (jsOr svc.addresses.head? [])),
          svc.port, jsOr svc.txtDisplayName svc.name)) := by
  constructor
  · rw [decodeServiceName]
    by_cases hlen : (jsSplit '_' s).length < 3
    · rw [if_pos hlen]
      simp [hlen]
    · rw [if_neg hlen]
      dsimp only
      cases hport : jsParseInt
          ((jsSplit '_' s).getD ((jsSplit '_' s).length - 2) []) with
      | none => simp [hlen, hport]
      | some pv =>
        dsimp only
        by_cases hip : dottedQuad (((jsSplit '_' s).getLastD []).map
            (fun c => if c = '-' then '.' else c)) = true
        · rw [if_pos hip]
          rw [List.getLastD_eq_getLast?] at hip
          simp [hlen, hport, hip]
        · rw [if_neg hip]
          simp only [Bool.not_eq_true] at hip
          rw [List.getLastD_eq_getLast?] at hip
          simp [hlen, hport, hip]
  · intro h
    rw [resolvedInfo, h]

/-- A service with an undecodable name (one segment) for the C7 witness. -/
def svcPlain : UpService :=
  { name := "LivingRoomPC".data,
    txtDeviceId := some "peer-b".data,
    txtIp := some "192.168.0.9".data,
    port := 8765 }

theorem decodeServiceName_validation_witness :
    decodeServiceName svcPlain.name = none ∧
    resolvedInfo svcPlain =
      (jsOr svcPlain.txtIp
        (jsOr (svcPlain.addresses.find? (fun a => !a.contains ':'))
          (jsOr svcPlain.addresses.head? [])),
        svcPlain.port, jsOr svcPlain.txtDisplayName svcPlain.name) :=
  ⟨by decide,
    (decodeServiceName_validation svcPlain.name svcPlain).2 (by decide)⟩

/-! ### Expiry Scheduler (electron/services/autoDeleteService.ts,
runCleanup, with getExpiredDownloads from database/downloads.ts)

The stored expiry is `expiresAt.toISOString()` (for example
`2026-10-11T01:00:00.000Z`), while the SQL query compares it against
`datetime('now')` (`2026-10-11 23:00:00`) with SQLite's default BINARY
(byte-wise) TEXT collation — the `expires_at` column is declared TEXT.
Both renderings are modelled from a structured UTC timestamp. -/

/-- A UTC timestamp as both renderings present it. -/
structure DateTimeU where
  year : Nat
  month : Nat
  day : Nat
  hour : Nat
  minute : Nat
  second : Nat
  ms : Nat
deriving DecidableEq, Repr

/-- Two-digit zero-padded decimal (fields are below 100 in any real
timestamp; `validDT` records the bounds). -/
def pad2 (n : Nat) : List Char := [digitChar (n / 10), digitChar (n % 10)]

/-- Three-digit zero-padded decimal (milliseconds). -/
def pad3 (n : Nat) : List Char := digitChar (n / 100) :: pad2 (n % 100)

/-- Four-digit zero-padded decimal (year). -/
def pad4 (n : Nat) : List Char := pad2 (n / 100) ++ pad2 (n % 100)

/-- Field bounds under which the padded renderings are faithful. -/
def validDT (t : DateTimeU) : Prop :=
  t.year < 10000 ∧ t.month < 100 ∧ t.day < 100 ∧ t.hour < 100 ∧
    t.minute < 100 ∧ t.second < 100 ∧ t.ms < 1000

instance (t : DateTimeU) : Decidable (validDT t) :=
  inferInstanceAs (Decidable (t.year < 10000 ∧ t.month < 100 ∧
    t.day < 100 ∧ t.hour < 100 ∧ t.minute < 100 ∧ t.second < 100 ∧
    t.ms < 1000))

/-- `Date.prototype.toISOString`: `YYYY-MM-DDTHH:mm:ss.sssZ`. -/
def isoRender (t : DateTimeU) : List Char :=
  pad4 t.year ++ '-' :: (pad2 t.month ++ '-' :: (pad2 t.day ++ 'T' ::
    (pad2 t.hour ++ ':' :: (pad2 t.minute ++ ':' ::
      (pad2 t.second ++ '.' :: (pad3 t.ms ++ ['Z']))))))

/-- SQLite `datetime('now')`: `YYYY-MM-DD HH:MM:SS`. -/
def sqliteNow (t : DateTimeU) : List Char :=
  pad4 t.year ++ '-' :: (pad2 t.month ++ '-' :: (pad2 t.day ++ ' ' ::
    (pad2 t.hour ++ ':' :: (pad2 t.minute ++ ':' :: pad2 t.second))))

/-- Strictly earlier UTC calendar date. -/
def dateLtB (a b : DateTimeU) : Bool :=
  decide (a.year < b.year) ||
    (decide (a.year = b.year) && (decide (a.month < b.month) ||
      (decide (a.month = b.month) && decide (a.day < b.day))))

/-- Strictly earlier instant (full chronological order). -/
def chronoLtB (a b : DateTimeU) : Bool :=
  decide (a.year < b.year) || (decide (a.year = b.year) &&
    (decide (a.month < b.month) || (decide (a.month = b.month) &&
      (decide (a.day < b.day) || (decide (a.day = b.day) &&
        (decide (a.hour < b.hour) || (decide (a.hour = b.hour) &&
          (decide (a.minute < b.minute) || (decide (a.minute = b.minute) &&
            (decide (a.second < b.second) ||
              (decide (a.second = b.second) &&
                decide (a.ms < b.ms))))))))))))

theorem digitChar_eq_iff (u v : Nat) (hu : u < 10) (hv : v < 10) :
    digitChar u = digitChar v ↔ u = v := by
  rcases digit_cases u hu with rfl|rfl|rfl|rfl|rfl|rfl|rfl|rfl|rfl|rfl <;>
    rcases digit_cases v hv with rfl|rfl|rfl|rfl|rfl|rfl|rfl|rfl|rfl|rfl <;>
    decide

theorem digitChar_lt_iff (u v : Nat) (hu : u < 10) (hv : v < 10) :
    digitChar u < digitChar v ↔ u < v := by
  rcases digit_cases u hu with rfl|rfl|rfl|rfl|rfl|rfl|rfl|rfl|rfl|rfl <;>
    rcases digit_cases v hv with rfl|rfl|rfl|rfl|rfl|rfl|rfl|rfl|rfl|rfl <;>
    decide

theorem textLt_cons_eq (c : Char) (xs ys : List Char) :
    textLt (c :: xs) (c :: ys) = textLt xs ys := by
  simp [textLt]

theorem textLt_pad2 (a b : Nat) (ha : a < 100) (hb : b < 100)
    (r1 r2 : List Char) :
    textLt (pad2 a ++ r1) (pad2 b ++ r2) =
      if a = b then textLt r1 r2 else decide (a < b) := by
  have h1 : a / 10 < 10 := by omega
  have h2 : b / 10 < 10 := by omega
  have h3 : a % 10 < 10 := by omega
  have h4 : b % 10 < 10 := by omega
  simp only [pad2, List.cons_append, List.nil_append, textLt]
  by_cases e1 : digitChar (a / 10) = digitChar (b / 10)
  · rw [if_pos e1]
    have ea : a / 10 = b / 10 := (digitChar_eq_iff _ _ h1 h2).mp e1
    by_cases e2 : digitChar (a % 10) = digitChar (b % 10)
    · have eb : a % 10 = b % 10 := (digitChar_eq_iff _ _ h3 h4).mp e2
      have hab : a = b := by omega
      rw [if_pos e2, if_pos hab]
      rfl
    · have neb : a % 10 ≠ b % 10 := fun hh =>
        e2 ((digitChar_eq_iff _ _ h3 h4).mpr hh)
      have nab : ¬ a = b := by omega
      rw [if_neg e2, if_neg nab, decide_eq_decide]
      rw [digitChar_lt_iff _ _ h3 h4]
      constructor <;> intro <;> omega
  · have na : a / 10 ≠ b / 10 := fun hh =>
      e1 ((digitChar_eq_iff _ _ h1 h2).mpr hh)
    have nab : ¬ a = b := by omega
    rw [if_neg e1, if_neg nab, decide_eq_decide]
    rw [digitChar_lt_iff _ _ h1 h2]
    constructor <;> intro <;> omega

theorem textLt_pad4 (a b : Nat) (ha : a < 10000) (hb : b < 10000)
    (r1 r2 : List Char) :
    textLt (pad4 a ++ r1) (pad4 b ++ r2) =
      if a = b then textLt r1 r2 else decide (a < b) := by
  rw [pad4, pad4, List.append_assoc, List.append_assoc]
  rw [textLt_pad2 (a / 100) (b / 100) (by omega) (by omega)]
  by_cases e : a / 100 = b / 100
  · rw [if_pos e, textLt_pad2 _ _ (by omega) (by omega)]
    by_cases e2 : a % 100 = b % 100
    · rw [if_pos e2, if_pos (show a = b by omega)]
    · rw [if_neg e2, if_neg (show ¬ a = b by omega), decide_eq_decide]
      constructor <;> intro <;> omega
  · rw [if_neg e, if_neg (show ¬ a = b by omega), decide_eq_decide]
    constructor <;> intro <;> omega

/-- The stored ISO expiry compares below the SQLite now-string exactly when
its UTC calendar date is strictly earlier: on equal dates the eleventh
character decides, and `'T' < ' '` is false. -/
theorem textLt_iso_sqlite (e n : DateTimeU) (he : validDT e)
    (hn : validDT n) :
    textLt (isoRender e) (sqliteNow n) = dateLtB e n := by
  obtain ⟨he1, he2, he3, _⟩ := he
  obtain ⟨hn1, hn2, hn3, _⟩ := hn
  rw [isoRender, sqliteNow, textLt_pad4 _ _ he1 hn1]
  by_cases e1 : e.year = n.year
  · rw [if_pos e1, textLt_cons_eq, textLt_pad2 _ _ he2 hn2]
    by_cases e2 : e.month = n.month
    · rw [if_pos e2, textLt_cons_eq, textLt_pad2 _ _ he3 hn3]
      by_cases e3 : e.day = n.day
      · rw [if_pos e3]
        have hT : textLt ('T' :: (pad2 e.hour ++ ':' ::
            (pad2 e.minute ++ ':' ::
              (pad2 e.second ++ '.' :: (pad3 e.ms ++ ['Z'])))))
            (' ' :: (pad2 n.hour ++ ':' ::
              (pad2 n.minute ++ ':' :: pad2 n.second))) = false := by
          simp [textLt]
        rw [hT, dateLtB, e1, e2, e3]
        simp
      · rw [if_neg e3, dateLtB, e1, e2]
        simp
    · rw [if_neg e2, dateLtB, e1]
      simp [e2]
  · rw [if_neg e1, dateLtB]
    simp [e1]

/-- getExpiredDownloads: completed rows whose stored expiry string is
byte-wise below the current datetime string. -/
def getExpiredDownloads (db : List DRec) (now : List Char) : List DRec :=
  db.filter (fun d => decide (d.status = DStatus.completed) &&
    (match d.expiresAt with
     | some es => textLt es now
     | none => false))

/-- One iteration of runCleanup's loop over an expired download: delete the
local file when it exists (`fs.unlinkSync`, which may throw — the `faults`
oracle says whether it does for this id; the catch then skips the record),
then delete the database row. -/
def cleanupStep (faults : Nat → Bool) (st : List DRec × List (List Char))
    (d : DRec) : List DRec × List (List Char) :=
  match d.localPath with
  | some p =>
    if p ∈ st.2 then
      if faults d.id then st
      else (st.1.filter (fun r => !decide (r.id = d.id)),
        st.2.filter (fun q => !decide (q = p)))
    else (st.1.filter (fun r => !decide (r.id = d.id)), st.2)
  | none => (st.1.filter (fun r => !decide (r.id = d.id)), st.2)

/-- runCleanup: process every expired download in order; the filesystem is
the set of present paths. -/
def runCleanup (db : List DRec) (fsFiles : List (List Char))
    (faults : Nat → Bool) (now : List Char) :
    List DRec × List (List Char) :=
  (getExpiredDownloads db now).foldl (cleanupStep faults) (db, fsFiles)

theorem cleanup_fold_subset (faults : Nat → Bool) (exp : List DRec) :
    ∀ st : List DRec × List (List Char),
      (∀ r ∈ (exp.foldl (cleanupStep faults) st).1, r ∈ st.1) ∧
      (∀ p ∈ (exp.foldl (cleanupStep faults) st).2, p ∈ st.2) := by
  induction exp with
  | nil => intro st; exact ⟨fun r h => h, fun p h => h⟩
  | cons x xs ih =>
    intro st
    rw [List.foldl_cons]
    have hstep : (∀ r ∈ (cleanupStep faults st x).1, r ∈ st.1) ∧
        (∀ p ∈ (cleanupStep faults st x).2, p ∈ st.2) := by
      rw [cleanupStep]
      cases x.localPath with
      | none =>
        dsimp only
        exact ⟨fun r h => List.mem_of_mem_filter h, fun p h => h⟩
      | some q =>
        dsimp only
        by_cases hq : q ∈ st.2
        · rw [if_pos hq]
          by_cases hf : faults x.id
          · rw [if_pos hf]
            exact ⟨fun r h => h, fun p h => h⟩
          · rw [if_neg hf]
            exact ⟨fun r h => List.mem_of_mem_filter h,
              fun p h => List.mem_of_mem_filter h⟩
        · rw [if_neg hq]
          exact ⟨fun r h => List.mem_of_mem_filter h, fun p h => h⟩
    have hxs := ih (cleanupStep faults st x)
    exact ⟨fun r h => hstep.1 r (hxs.1 r h), fun p h => hstep.2 p (hxs.2 p h)⟩

theorem cleanup_fold_removes (faults : Nat → Bool) (exp : List DRec) :
    ∀ st : List DRec × List (List Char), ∀ d ∈ exp, ¬ faults d.id = true →
      (∀ r ∈ (exp.foldl (cleanupStep faults) st).1, r.id ≠ d.id) ∧
      (∀ p, d.localPath = some p →
        p ∉ (exp.foldl (cleanupStep faults) st).2) := by
  induction exp with
  | nil => intro st d hd; exact absurd hd (List.not_mem_nil d)
  | cons x xs ih =>
    intro st d hd hnf
    rw [List.foldl_cons]
    rcases List.mem_cons.mp hd with he | hmem
    · subst he
      have hstep1 : ∀ r ∈ (cleanupStep faults st d).1, r.id ≠ d.id := by
        rw [cleanupStep]
        cases hlp : d.localPath with
        | none =>
          dsimp only
          intro r hr
          have := (List.mem_filter.mp hr).2
          simpa using this
        | some q =>
          dsimp only
          by_cases hq : q ∈ st.2
          · rw [if_pos hq, if_neg (by simpa using hnf)]
            intro r hr
            have := (List.mem_filter.mp hr).2
            simpa using this
          · rw [if_neg hq]
            intro r hr
            have := (List.mem_filter.mp hr).2
            simpa using this
      have hstep2 : ∀ p, d.localPath = some p →
          p ∉ (cleanupStep faults st d).2 := by
        intro p hp
        rw [cleanupStep, hp]
        dsimp only
        by_cases hq : p ∈ st.2
        · rw [if_pos hq, if_neg (by simpa using hnf)]
          intro hmem2
          have := (List.mem_filter.mp hmem2).2
          simp at this
        · rw [if_neg hq]
          exact hq
      have hsub := cleanup_fold_subset faults xs (cleanupStep faults st d)
      refine ⟨fun r hr => hstep1 r (hsub.1 r hr), fun p hp hmem2 =>
        hstep2 p hp (hsub.2 p hmem2)⟩
    · exact ih (cleanupStep faults st x) d hmem hnf

theorem cleanup_fold_keeps_db (faults : Nat → Bool) (exp : List DRec) :
    ∀ st : List DRec × List (List Char), ∀ d : DRec, d ∈ st.1 →
      (∀ x ∈ exp, x.id ≠ d.id) →
      d ∈ (exp.foldl (cleanupStep faults) st).1 := by
  induction exp with
  | nil => intro st d hd _; exact hd
  | cons x xs ih =>
    intro st d hd hne
    rw [List.foldl_cons]
    have hxne : x.id ≠ d.id := hne x (List.mem_cons_self x xs)
    have hstep : d ∈ (cleanupStep faults st x).1 := by
      rw [cleanupStep]
      have hkeep : d ∈ st.1.filter (fun r => !decide (r.id = x.id)) := by
        rw [List.mem_filter]
        refine ⟨hd, ?_⟩
        simp only [Bool.not_eq_true', decide_eq_false_iff_not]
        exact fun hh => hxne hh.symm
      cases x.localPath with
      | none => exact hkeep
      | some q =>
        dsimp only
        by_cases hq : q ∈ st.2
        · rw [if_pos hq]
          by_cases hf : faults x.id
          · rw [if_pos hf]; exact hd
          · rw [if_neg hf]; exact hkeep
        · rw [if_neg hq]; exact hkeep
    exact ih (cleanupStep faults st x) d hstep
      (fun y hy => hne y (List.mem_cons_of_mem x hy))

theorem cleanup_fold_keeps_fs (faults : Nat → Bool) (exp : List DRec) :
    ∀ st : List DRec × List (List Char), ∀ p : List Char, p ∈ st.2 →
      (∀ x ∈ exp, ∀ q, x.localPath = some q → q ≠ p) →
      p ∈ (exp.foldl (cleanupStep faults) st).2 := by
  induction exp with
  | nil => intro st p hp _; exact hp
  | cons x xs ih =>
    intro st p hp hne
    rw [List.foldl_cons]
    have hstep : p ∈ (cleanupStep faults st x).2 := by
      rw [cleanupStep]
      cases hlp : x.localPath with
      | none => exact hp
      | some q =>
        dsimp only
        have hqp : q ≠ p := hne x (List.mem_cons_self x xs) q hlp
        by_cases hq : q ∈ st.2
        · rw [if_pos hq]
          by_cases hf : faults x.id
          · rw [if_pos hf]; exact hp
          · rw [if_neg hf]
            rw [List.mem_filter]
            refine ⟨hp, ?_⟩
            simp only [Bool.not_eq_true', decide_eq_false_iff_not]
            exact fun hh => hqp hh.symm
        · rw [if_neg hq]; exact hp
    exact ih (cleanupStep faults st x) p hstep
      (fun y hy => hne y (List.mem_cons_of_mem x hy))

/-- Membership in the expired selection. -/
theorem mem_getExpiredDownloads (db : List DRec) (now : List Char)
    (d : DRec) :
    d ∈ getExpiredDownloads db now ↔
      d ∈ db ∧ d.status = DStatus.completed ∧
        ∃ es, d.expiresAt = some es ∧ textLt es now = true := by
  rw [getExpiredDownloads, List.mem_filter]
  constructor
  · rintro ⟨hmem, hcond⟩
    simp only [Bool.and_eq_true, decide_eq_true_eq] at hcond
    refine ⟨hmem, hcond.1, ?_⟩
    cases hexp : d.expiresAt with
    | none => rw [hexp] at hcond; exact absurd hcond.2 (by simp)
    | some es =>
      rw [hexp] at hcond
      exact ⟨es, rfl, hcond.2⟩
  · rintro ⟨hmem, hst, es, hexp, hlt⟩
    refine ⟨hmem, ?_⟩
    simp only [Bool.and_eq_true, decide_eq_true_eq]
    exact ⟨hst, by rw [hexp]; exact hlt⟩

/-- Claim C8 amended: a cleanup run, with the current UTC time rendered as
SQLite's `datetime('now')`, (a) deletes the record and the local file of
every completed download whose stored ISO expiry has a UTC calendar date
strictly before the current date (tolerating an already-missing file) and
whose file deletion does not fault — independently of faults on other
items; (b) leaves every download untouched whose status is not completed,
or whose expiry is unset or has a calendar date not before the current one
(in particular every expiry in the future, and every past expiry on the
current UTC date — those wait for the next date change, because the stored
`T`-separated ISO string compares above the space-separated now-string);
and (c) never touches a file no expired download points to. -/
theorem runCleanup_spec (db : List DRec) (fs : List (List Char))
    (faults : Nat → Bool) (n : DateTimeU) (hn : validDT n) :
    (∀ d ∈ db, d.status = DStatus.completed → ∀ e, validDT e →
      d.expiresAt = some (isoRender e) → dateLtB e n = true →
      ¬ faults d.id = true →
      (∀ r ∈ (runCleanup db fs faults (sqliteNow n)).1, r.id ≠ d.id) ∧
      (∀ p, d.localPath = some p →
        p ∉ (runCleanup db fs faults (sqliteNow n)).2)) ∧
    ((db.map (fun r => r.id)).Nodup → ∀ d ∈ db,
      (d.status ≠ DStatus.completed ∨ d.expiresAt = none ∨
        (∃ e, validDT e ∧ d.expiresAt = some (isoRender e) ∧
          dateLtB e n = false)) →
      d ∈ (runCleanup db fs faults (sqliteNow n)).1) ∧
    (∀ p ∈ fs,
      (∀ d ∈ getExpiredDownloads db (sqliteNow n), d.localPath ≠ some p) →
      p ∈ (runCleanup db fs faults (sqliteNow n)).2) := by
  refine ⟨?_, ?_, ?_⟩
  · intro d hd hst e hve hexp hlt hnf
    have hdexp : d ∈ getExpiredDownloads db (sqliteNow n) := by
      rw [mem_getExpiredDownloads]
      exact ⟨hd, hst, isoRender e, hexp, by
        rw [textLt_iso_sqlite e n hve hn]; exact hlt⟩
    exact cleanup_fold_removes faults _ (db, fs) d hdexp hnf
  · intro hnodup d hd hcond
    refine cleanup_fold_keeps_db faults _ (db, fs) d hd ?_
    intro x hx
    intro hxd
    rw [mem_getExpiredDownloads] at hx
    obtain ⟨hxdb, hxst, es, hxexp, hxlt⟩ := hx
    have hxd2 : x = d := List.inj_on_of_nodup_map hnodup hxdb hd hxd
    subst hxd2
    rcases hcond with hc | hc | hc
    · exact hc hxst
    · rw [hc] at hxexp; exact absurd hxexp (by simp)
    · obtain ⟨e, hve, hexp2, hfalse⟩ := hc
      rw [hexp2] at hxexp
      have : es = isoRender e := ((Option.some.injEq _ _).mp hxexp).symm
      subst this
      rw [textLt_iso_sqlite e n hve hn] at hxlt
      rw [hxlt] at hfalse
      exact absurd hfalse (by simp)
  · intro p hp hne
    exact cleanup_fold_keeps_fs faults _ (db, fs) p hp
      (fun x hx q hq hqp => hne x hx (by rw [hq, hqp]))

/-- An expiry on 2026-10-10 and a current time late on 2026-10-11, for the
C8 witness. -/
def c8PastDT : DateTimeU := ⟨2026, 10, 10, 1, 0, 0, 0⟩

/-- The cleanup run's current time for the C8 theorems. -/
def c8NowDT : DateTimeU := ⟨2026, 10, 11, 23, 0, 0, 0⟩

/-- A completed download whose expiry date has passed. -/
def c8OldRec : DRec :=
  { id := 1, fileId := 1, deviceId := 1, status := DStatus.completed,
    localPath := some "old.mp4".data,
    expiresAt := some (isoRender c8PastDT) }

theorem runCleanup_spec_witness :
    validDT c8NowDT ∧
    ((∀ r ∈ (runCleanup [c8OldRec] ["old.mp4".data] (fun _ => false)
        (sqliteNow c8NowDT)).1, r.id ≠ c8OldRec.id) ∧
      (∀ p, c8OldRec.localPath = some p →
        p ∉ (runCleanup [c8OldRec] ["old.mp4".data] (fun _ => false)
          (sqliteNow c8NowDT)).2)) :=
  ⟨by decide,
    (runCleanup_spec [c8OldRec] ["old.mp4".data] (fun _ => false) c8NowDT
        (by decide)).1
      c8OldRec (List.mem_cons_self _ _) (by decide) c8PastDT (by decide)
      (by decide) (by decide) (by decide)⟩

/-- An expiry earlier on the same UTC day as the current time. -/
def c8SameDayDT : DateTimeU := ⟨2026, 10, 11, 1, 0, 0, 0⟩

/-- A completed download whose expiry timestamp is in the past but on the
current UTC date. -/
def c8SameDayRec : DRec :=
  { id := 2, fileId := 2, deviceId := 2, status := DStatus.completed,
    localPath := some "recent.mp4".data,
    expiresAt := some (isoRender c8SameDayDT) }

/-- Claim C8 as stated is false: this completed download's expiry
timestamp is chronologically in the past (01:00 vs 23:00 UTC the same
day), yet the cleanup run deletes neither its file nor its record, because
the stored ISO string `2026-10-11T01:00:00.000Z` compares byte-wise above
SQLite's `2026-10-11 23:00:00` (`'T' > ' '` at the eleventh character). -/
theorem runCleanup_misses_same_day_expiry :
    chronoLtB c8SameDayDT c8NowDT = true ∧
    runCleanup [c8SameDayRec] ["recent.mp4".data] (fun _ => false)
        (sqliteNow c8NowDT) =
      ([c8SameDayRec], ["recent.mp4".data]) := by
  decide

end HMS
